import Mathlib

/-!
# Verification of the c64jasm prototype assembler and disassembler

A shallow embedding of the 6502 assembler (source file `part_007`, class
`Assembler`) and the matching disassembler (source file `part_008`, class
`Disassembler`).  The implementation language is TypeScript running on Node;
numbers are JavaScript doubles and the bitwise operators work on 32-bit
two's-complement integers.  We model JavaScript numbers by `ℚ`:

* `+ - *` on doubles are exact whenever all values involved are
  dyadic rationals of magnitude below 2^53, which covers every value that
  appears in the theorems below;
* `/` is modelled by exact rational division, while Node computes the
  correctly-rounded IEEE-double quotient.  The two agree exactly whenever
  the rational quotient is itself a representable double (`reprDouble`
  below) and the operands are integers below 2^53; every theorem that
  asserts a quotient *value* is restricted to that region by a
  `reprDouble` hypothesis or uses a dyadic quotient such as `5 / 2` that
  is exact in doubles.  (For a zero divisor JavaScript produces
  `Infinity` while `ℚ` yields `0`; no theorem asserts a quotient value
  for a zero divisor - only the absence of a diagnostic, which holds in
  both models.)
* `%` is modelled by the `fmod` rule `a - b * trunc (a / b)`;
* the bitwise operators `& | ^ << >> ~` first convert their operands with
  the ECMAScript `ToInt32`/`ToUint32` conversions (truncate toward zero,
  then reduce mod 2^32) and work on the 32-bit two's-complement value;
  shift counts are reduced mod 32.

The AST mirrors the shapes produced by the generated parser (`g_parser.js`)
as they are consumed by `Assembler.assembleLine` / `Assembler.evalExpr`:
expression nodes `binary`/`UnaryExpression`/`literal`/`ident`, instruction
nodes with the operand slots `imm`, `abs`, `absx`, `absy`, `absind`, and
statement nodes `byte`/`word`/`setpc` (the `binary` include directive needs
host file I/O and is not modelled; no claim depends on it).
-/

/-! ## JavaScript number semantics -/

/-- ECMAScript truncation toward zero of a (finite) number. -/
def jsTrunc (q : ℚ) : ℤ := if 0 ≤ q then ⌊q⌋ else ⌈q⌉

/-- ECMAScript `ToUint32`: truncate toward zero, reduce mod 2^32. -/
def toUint32 (q : ℚ) : ℕ := ((jsTrunc q).emod 4294967296).toNat

/-- Reinterpret a value in `[0, 2^32)` as a signed 32-bit integer. -/
def asInt32 (n : ℕ) : ℤ := if n < 2147483648 then (n : ℤ) else (n : ℤ) - 4294967296

/-- ECMAScript `ToInt32`. -/
def jsToInt32 (q : ℚ) : ℤ := asInt32 (toUint32 q)

/-- JavaScript `a & b` (32-bit two's-complement bitwise and). -/
def jsAnd (a b : ℚ) : ℚ := (asInt32 (Nat.land (toUint32 a) (toUint32 b)) : ℤ)

/-- JavaScript `a | b`. -/
def jsOr (a b : ℚ) : ℚ := (asInt32 (Nat.lor (toUint32 a) (toUint32 b)) : ℤ)

/-- JavaScript `a ^ b`. -/
def jsXor (a b : ℚ) : ℚ := (asInt32 (Nat.xor (toUint32 a) (toUint32 b)) : ℤ)

/-- JavaScript `a << b`: shift the `ToInt32` of `a` left by `ToUint32 b mod 32`,
wrapping the result back into signed 32-bit range. -/
def jsShl (a b : ℚ) : ℚ :=
  (asInt32 ((toUint32 a <<< (toUint32 b % 32)) % 4294967296) : ℤ)

/-- JavaScript `a >> b`: arithmetic (sign-extending) right shift of the
`ToInt32` of `a` by `ToUint32 b mod 32`. -/
def jsShr (a b : ℚ) : ℚ := (jsToInt32 a >>> (toUint32 b % 32 : ℕ) : ℤ)

/-- JavaScript `~a`, the 32-bit bitwise not; equals `-ToInt32(a) - 1`. -/
def jsNot (a : ℚ) : ℚ := (-(jsToInt32 a) - 1 : ℤ)

/-- JavaScript `a % b` (`fmod`; the result carries the sign of the dividend).
JavaScript produces `NaN` for `b = 0`; that case is never exercised here. -/
def jsMod (a b : ℚ) : ℚ := a - b * (jsTrunc (a / b) : ℤ)

/-- Coercion applied by Node's `Buffer.from` to each array element
(ECMAScript `ToUint8`: truncate toward zero, reduce mod 2^8). -/
def toUint8 (q : ℚ) : ℕ := ((jsTrunc q).emod 256).toNat

/-- JavaScript `String.prototype.toUpperCase` restricted to ASCII input
(all mnemonics are ASCII). -/
def toUpperCase (s : String) : String := ⟨s.data.map Char.toUpper⟩

/-- The finite IEEE binary64 values: `m * 2^k` with a 53-bit significand
and an exponent in the double range.  When the exact rational quotient of
two integer operands below `2^53` (hence themselves exact doubles) is such
a value, the correctly-rounded double division the program performs
returns it exactly, so on that region the exact rational division
modelling `/` coincides with the program. -/
def reprDouble (q : ℚ) : Prop :=
  ∃ m k : ℤ, m.natAbs < 2 ^ 53 ∧ -1074 ≤ k ∧ k ≤ 971 ∧ q = (m : ℚ) * (2 : ℚ) ^ k

/-! ## AST (shapes produced by the parser, as consumed by the assembler) -/

/-- Expression nodes of the parser: `literal`, `ident`, `binary` and
`UnaryExpression` (the parser's field names are `value`, `name`,
`op`/`left`/`right` and `operator`/`argument`). -/
inductive Expr : Type
  | literal (value : ℤ)
  | ident (name : String)
  | binary (op : String) (left right : Expr)
  | unary (operator : String) (argument : Expr)
deriving DecidableEq, Repr

/-- An instruction statement: the mnemonic plus the operand slots filled in
by the parser (at most one is `some` for well-formed source). -/
structure Insn where
  mnemonic : String
  imm : Option Expr
  abs : Option Expr
  absx : Option Expr
  absy : Option Expr
  absind : Option Expr
deriving DecidableEq, Repr

/-- Non-empty statements: an instruction or one of the directives handled by
`checkDirectives` (`byte`, `word`, `setpc`).  `unknown` stands for any other
`type` tag, which falls into `checkDirectives`' default branch. -/
inductive Stmt : Type
  | insn (insn : Insn)
  | byte (values : List Expr)
  | word (values : List Expr)
  | setpc (pc : Expr)
  | unknown
deriving DecidableEq, Repr

/-- One parsed source line: optional label, optional statement.  The parser
produces `null` for empty lines, modelled as `Option Line` at the call
sites. -/
structure Line where
  label : Option String
  stmt : Option Stmt
deriving DecidableEq, Repr

/-! ## Opcode table

Modelled from the spec: the module `./opcodes`, imported by both the
assembler (`part_007`) and the disassembler (`part_008`), is not among the
provided sources - only its callers are.  Spec §4.1 describes it as a static
mapping from each of the 56 official 6502 mnemonics to its opcode byte per
addressing mode.  The column layout (12 columns) is fixed by the callers:
`assembleLine` uses `op[0]` for Immediate, `op[1]` for ZeroPage, `op[4]` for
Absolute, `op[5]`/`op[6]` for Absolute,X/Y, `op[7]` for Indirect, `op[10]`
for Implied/Accumulator and `op[11]` for Relative, and the commented-out
checks name `op[2]`/`op[3]` (ZeroPage,X/Y) and `op[8]`/`op[9]`
((Indirect,X)/(Indirect),Y).  The opcode byte values are taken from the
6502 instruction-reference data in the provided source `part_001`.
Keys are upper case (`assembleLine` looks up `mnemonic.toUpperCase()`). -/

/-- `some` shorthand for table entries. -/
def oc (n : ℕ) : Option ℕ := some n

/-- `null` shorthand for table entries. -/
def nc : Option ℕ := none

/-- The opcode table.  Column order:
0 Immediate, 1 ZeroPage, 2 ZeroPage,X, 3 ZeroPage,Y, 4 Absolute,
5 Absolute,X, 6 Absolute,Y, 7 Indirect, 8 (Indirect,X), 9 (Indirect),Y,
10 Implied/Accumulator, 11 Relative. -/
def opcodes : List (String × List (Option ℕ)) := [
  ("ADC", [oc 0x69, oc 0x65, oc 0x75, nc, oc 0x6D, oc 0x7D, oc 0x79, nc, oc 0x61, oc 0x71, nc, nc]),
  ("AND", [oc 0x29, oc 0x25, oc 0x35, nc, oc 0x2D, oc 0x3D, oc 0x39, nc, oc 0x21, oc 0x31, nc, nc]),
  ("ASL", [nc, oc 0x06, oc 0x16, nc, oc 0x0E, oc 0x1E, nc, nc, nc, nc, oc 0x0A, nc]),
  ("BCC", [nc, nc, nc, nc, nc, nc, nc, nc, nc, nc, nc, oc 0x90]),
  ("BCS", [nc, nc, nc, nc, nc, nc, nc, nc, nc, nc, nc, oc 0xB0]),
  ("BEQ", [nc, nc, nc, nc, nc, nc, nc, nc, nc, nc, nc, oc 0xF0]),
  ("BIT", [nc, oc 0x24, nc, nc, oc 0x2C, nc, nc, nc, nc, nc, nc, nc]),
  ("BMI", [nc, nc, nc, nc, nc, nc, nc, nc, nc, nc, nc, oc 0x30]),
  ("BNE", [nc, nc, nc, nc, nc, nc, nc, nc, nc, nc, nc, oc 0xD0]),
  ("BPL", [nc, nc, nc, nc, nc, nc, nc, nc, nc, nc, nc, oc 0x10]),
  ("BRK", [nc, nc, nc, nc, nc, nc, nc, nc, nc, nc, oc 0x00, nc]),
  ("BVC", [nc, nc, nc, nc, nc, nc, nc, nc, nc, nc, nc, oc 0x50]),
  ("BVS", [nc, nc, nc, nc, nc, nc, nc, nc, nc, nc, nc, oc 0x70]),
  ("CLC", [nc, nc, nc, nc, nc, nc, nc, nc, nc, nc, oc 0x18, nc]),
  ("CLD", [nc, nc, nc, nc, nc, nc, nc, nc, nc, nc, oc 0xD8, nc]),
  ("CLI", [nc, nc, nc, nc, nc, nc, nc, nc, nc, nc, oc 0x58, nc]),
  ("CLV", [nc, nc, nc, nc, nc, nc, nc, nc, nc, nc, oc 0xB8, nc]),
  ("CMP", [oc 0xC9, oc 0xC5, oc 0xD5, nc, oc 0xCD, oc 0xDD, oc 0xD9, nc, oc 0xC1, oc 0xD1, nc, nc]),
  ("CPX", [oc 0xE0, oc 0xE4, nc, nc, oc 0xEC, nc, nc, nc, nc, nc, nc, nc]),
  ("CPY", [oc 0xC0, oc 0xC4, nc, nc, oc 0xCC, nc, nc, nc, nc, nc, nc, nc]),
  ("DEC", [nc, oc 0xC6, oc 0xD6, nc, oc 0xCE, oc 0xDE, nc, nc, nc, nc, nc, nc]),
  ("DEX", [nc, nc, nc, nc, nc, nc, nc, nc, nc, nc, oc 0xCA, nc]),
  ("DEY", [nc, nc, nc, nc, nc, nc, nc, nc, nc, nc, oc 0x88, nc]),
  ("EOR", [oc 0x49, oc 0x45, oc 0x55, nc, oc 0x4D, oc 0x5D, oc 0x59, nc, oc 0x41, oc 0x51, nc, nc]),
  ("INC", [nc, oc 0xE6, oc 0xF6, nc, oc 0xEE, oc 0xFE, nc, nc, nc, nc, nc, nc]),
  ("INX", [nc, nc, nc, nc, nc, nc, nc, nc, nc, nc, oc 0xE8, nc]),
  ("INY", [nc, nc, nc, nc, nc, nc, nc, nc, nc, nc, oc 0xC8, nc]),
  ("JMP", [nc, nc, nc, nc, oc 0x4C, nc, nc, oc 0x6C, nc, nc, nc, nc]),
  ("JSR", [nc, nc, nc, nc, oc 0x20, nc, nc, nc, nc, nc, nc, nc]),
  ("LDA", [oc 0xA9, oc 0xA5, oc 0xB5, nc, oc 0xAD, oc 0xBD, oc 0xB9, nc, oc 0xA1, oc 0xB1, nc, nc]),
  ("LDX", [oc 0xA2, oc 0xA6, nc, oc 0xB6, oc 0xAE, nc, oc 0xBE, nc, nc, nc, nc, nc]),
  ("LDY", [oc 0xA0, oc 0xA4, oc 0xB4, nc, oc 0xAC, oc 0xBC, nc, nc, nc, nc, nc, nc]),
  ("LSR", [nc, oc 0x46, oc 0x56, nc, oc 0x4E, oc 0x5E, nc, nc, nc, nc, oc 0x4A, nc]),
  ("NOP", [nc, nc, nc, nc, nc, nc, nc, nc, nc, nc, oc 0xEA, nc]),
  ("ORA", [oc 0x09, oc 0x05, oc 0x15, nc, oc 0x0D, oc 0x1D, oc 0x19, nc, oc 0x01, oc 0x11, nc, nc]),
  ("PHA", [nc, nc, nc, nc, nc, nc, nc, nc, nc, nc, oc 0x48, nc]),
  ("PHP", [nc, nc, nc, nc, nc, nc, nc, nc, nc, nc, oc 0x08, nc]),
  ("PLA", [nc, nc, nc, nc, nc, nc, nc, nc, nc, nc, oc 0x68, nc]),
  ("PLP", [nc, nc, nc, nc, nc, nc, nc, nc, nc, nc, oc 0x28, nc]),
  ("ROL", [nc, oc 0x26, oc 0x36, nc, oc 0x2E, oc 0x3E, nc, nc, nc, nc, oc 0x2A, nc]),
  ("ROR", [nc, oc 0x66, oc 0x76, nc, oc 0x6E, oc 0x7E, nc, nc, nc, nc, oc 0x6A, nc]),
  ("RTI", [nc, nc, nc, nc, nc, nc, nc, nc, nc, nc, oc 0x40, nc]),
  ("RTS", [nc, nc, nc, nc, nc, nc, nc, nc, nc, nc, oc 0x60, nc]),
  ("SBC", [oc 0xE9, oc 0xE5, oc 0xF5, nc, oc 0xED, oc 0xFD, oc 0xF9, nc, oc 0xE1, oc 0xF1, nc, nc]),
  ("SEC", [nc, nc, nc, nc, nc, nc, nc, nc, nc, nc, oc 0x38, nc]),
  ("SED", [nc, nc, nc, nc, nc, nc, nc, nc, nc, nc, oc 0xF8, nc]),
  ("SEI", [nc, nc, nc, nc, nc, nc, nc, nc, nc, nc, oc 0x78, nc]),
  ("STA", [nc, oc 0x85, oc 0x95, nc, oc 0x8D, oc 0x9D, oc 0x99, nc, oc 0x81, oc 0x91, nc, nc]),
  ("STX", [nc, oc 0x86, nc, oc 0x96, oc 0x8E, nc, nc, nc, nc, nc, nc, nc]),
  ("STY", [nc, oc 0x84, oc 0x94, nc, oc 0x8C, nc, nc, nc, nc, nc, nc, nc]),
  ("TAX", [nc, nc, nc, nc, nc, nc, nc, nc, nc, nc, oc 0xAA, nc]),
  ("TAY", [nc, nc, nc, nc, nc, nc, nc, nc, nc, nc, oc 0xA8, nc]),
  ("TSX", [nc, nc, nc, nc, nc, nc, nc, nc, nc, nc, oc 0xBA, nc]),
  ("TXA", [nc, nc, nc, nc, nc, nc, nc, nc, nc, nc, oc 0x8A, nc]),
  ("TXS", [nc, nc, nc, nc, nc, nc, nc, nc, nc, nc, oc 0x9A, nc]),
  ("TYA", [nc, nc, nc, nc, nc, nc, nc, nc, nc, nc, oc 0x98, nc])]

/-! ## Assembler state (fields of class `Assembler` in `part_007`) -/

/-- A label entry (`interface Label`). -/
structure Label where
  addr : ℤ
  lineNo : ℕ
deriving DecidableEq, Repr

/-- The mutable fields of class `Assembler`, plus `errors`: the in-order
list of lines the assembler writes to the console (`error` writes a
formatted diagnostic, two call sites log a raw string). -/
structure AsmState where
  binary : List ℚ
  codePC : ℤ
  pass : ℕ
  labels : List (String × Label)
  errors : List String
  currentLineNo : ℕ
deriving DecidableEq, Repr

/-- The field initializers of class `Assembler` (`binary = []`,
`currentLineNo = 0`, `codePC = 0`, `pass = 0`, `labels = new Labels()`). -/
def initState : AsmState :=
  { binary := [], codePC := 0, pass := 0, labels := [], errors := [], currentLineNo := 0 }

/-- The format produced by `Assembler.error`:
`` `src/foo.asm:${this.currentLineNo} - ${err}` `` (the file name is the
hardcoded string `src/foo.asm`). -/
def errorFmt (lineNo : ℕ) (err : String) : String :=
  "src/foo.asm:" ++ toString lineNo ++ " - " ++ err

/-- `Assembler.error`: log one formatted diagnostic line. -/
def logError (s : AsmState) (err : String) : AsmState :=
  { s with errors := s.errors ++ [errorFmt s.currentLineNo err] }

/-- A bare `console.log` (used for `**** ERROR ERROR ERROR ****`). -/
def logRaw (s : AsmState) (msg : String) : AsmState :=
  { s with errors := s.errors ++ [msg] }

/-- `Assembler.startPass`: reset the PC to `$0801`, record the pass index,
clear the output buffer.  Labels and logged output persist. -/
def startPass (s : AsmState) (pass : ℕ) : AsmState :=
  { s with codePC := 0x801, pass := pass, binary := [] }

/-- `Assembler.emit`: push one byte value and advance the PC by one. -/
def emit (s : AsmState) (byte : ℚ) : AsmState :=
  { s with binary := s.binary ++ [byte], codePC := s.codePC + 1 }

/-- `Assembler.emit16`: emit `word & 0xff` then `(word >> 8) & 0xff`. -/
def emit16 (s : AsmState) (word : ℚ) : AsmState :=
  emit (emit s (jsAnd word 0xff)) (jsAnd (jsShr word 8) 0xff)

/-- `Assembler.emitBasicHeader`: the twelve bytes of the BASIC stub.  The
`dividers.forEach` loop emits `0x30 + (addr / div) % 10` for each divider
not exceeding `addr = 0x80d = 2061`; `/` and `%` are JavaScript float
operations, so the pushed digit values are non-integral rationals (they
become the digit bytes only through `Buffer.from`'s `ToUint8` truncation,
see `prg`). -/
def emitBasicHeader (s : AsmState) : AsmState :=
  let s := emit s 0x0c
  let s := emit s 0x08
  let s := emit s 0x00
  let s := emit s 0x00
  let s := emit s 0x9e
  let dividers : List ℚ := [10000, 1000, 100, 10, 1]
  let s := dividers.foldl
    (fun acc div => if div ≤ (2061 : ℚ) then emit acc (0x30 + jsMod (2061 / div) 10) else acc) s
  let s := emit s 0
  let s := emit s 0
  emit s 0

/-- `Assembler.prg`: `Buffer.from([1, 8].concat(this.binary))`; each array
element is coerced to a byte with `ToUint8`. -/
def prg (s : AsmState) : List ℕ :=
  1 :: 8 :: s.binary.map toUint8

/-- `Assembler.evalExpr` (the inner recursive `evalExpr(node)`).  The state
is read-only here (`pass`, `labels`, `currentLineNo`); the returned string
list collects the diagnostics logged via `this.error` during evaluation.
Notes kept from the source:
* the `default:` arm of the binary switch interpolates `node.operator`,
  a field that does not exist on binary nodes, so the logged message is
  literally `Unhandled binary operator undefined`;
* the unary case does not null-check `evalExpr(node.argument)`; JavaScript
  coerces `null` to `0`, hence the `getD 0`;
* identifiers resolve through the label table only on pass 1 and evaluate
  to `0` on every other pass. -/
def evalExpr (pass : ℕ) (labels : List (String × Label)) (lineNo : ℕ) :
    Expr → Option ℚ × List String
  | .literal v => (some (v : ℚ), [])
  | .ident name =>
      if pass = 1 then
        match List.lookup name labels with
        | none => (none, [errorFmt lineNo ("Undefined label '" ++ name ++ "'")])
        | some lbl => (some (lbl.addr : ℚ), [])
      else
        (some 0, [])
  | .binary op l r =>
      let lv := evalExpr pass labels lineNo l
      let rv := evalExpr pass labels lineNo r
      match lv.1, rv.1 with
      | some a, some b =>
        (match op with
         | "+" => (some (a + b), lv.2 ++ rv.2)
         | "-" => (some (a - b), lv.2 ++ rv.2)
         | "*" => (some (a * b), lv.2 ++ rv.2)
         | "/" => (some (a / b), lv.2 ++ rv.2)
         | "%" => (some (jsMod a b), lv.2 ++ rv.2)
         | "&" => (some (jsAnd a b), lv.2 ++ rv.2)
         | "|" => (some (jsOr a b), lv.2 ++ rv.2)
         | "^" => (some (jsXor a b), lv.2 ++ rv.2)
         | "<<" => (some (jsShl a b), lv.2 ++ rv.2)
         | ">>" => (some (jsShr a b), lv.2 ++ rv.2)
         | _ => (none, lv.2 ++ rv.2 ++ [errorFmt lineNo "Unhandled binary operator undefined"]))
      | _, _ => (none, lv.2 ++ rv.2)
  | .unary op e =>
      let r := evalExpr pass labels lineNo e
      match op with
      | "-" => (some (-(r.1.getD 0)), r.2)
      | "~" => (some (jsNot (r.1.getD 0)), r.2)
      | _ => (none, r.2 ++ [errorFmt lineNo ("Unhandled unary operator " ++ op)])

/-- Append the diagnostics returned by an `evalExpr` call to the state. -/
def withErrs (s : AsmState) (es : List String) : AsmState :=
  { s with errors := s.errors ++ es }

/-- `Assembler.checkSingle`. -/
def checkSingle (s : AsmState) (opcode : Option ℕ) : Bool × AsmState :=
  match opcode with
  | none => (false, s)
  | some op => (true, emit s (op : ℚ))

/-- `Assembler.checkImm`. -/
def checkImm (s : AsmState) (param : Option Expr) (opcode : Option ℕ) : Bool × AsmState :=
  match opcode, param with
  | none, _ => (false, s)
  | some _, none => (false, s)
  | some op, some p =>
    let r := evalExpr s.pass s.labels s.currentLineNo p
    let s1 := withErrs s r.2
    match r.1 with
    | none => (false, s1)
    | some val =>
      if val < 0 ∨ 255 < val then (false, s1)
      else (true, emit (emit s1 (op : ℚ)) val)

/-- `Assembler.checkAbs`: range check `[0, 1 << bits)`, then emit the opcode
followed by one byte (`bits = 8`) or a little-endian word. -/
def checkAbs (s : AsmState) (param : Option Expr) (opcode : Option ℕ) (bits : ℕ) :
    Bool × AsmState :=
  match opcode, param with
  | none, _ => (false, s)
  | some _, none => (false, s)
  | some op, some p =>
    let r := evalExpr s.pass s.labels s.currentLineNo p
    let s1 := withErrs s r.2
    match r.1 with
    | none => (false, s1)
    | some val =>
      if val < 0 ∨ jsShl 1 (bits : ℚ) ≤ val then (false, s1)
      else if bits = 8 then (true, emit (emit s1 (op : ℚ)) val)
      else (true, emit16 (emit s1 (op : ℚ)) val)

/-- `Assembler.checkBranch`.  On pass 0 it emits two placeholder zero
bytes; on later passes it emits the opcode and then the offset byte from
one of two arithmetic expressions (chosen by the `Backwards?` comparison),
both masked with `& 0xff`.  The source does not null-check `addr`
(JavaScript would coerce `null` to `0`, hence `getD 0`), and carries the
comment `// TODO check 8-bit overflow here!!` - there is no range check. -/
def checkBranch (s : AsmState) (param : Option Expr) (opcode : Option ℕ) : Bool × AsmState :=
  match opcode, param with
  | none, _ => (false, s)
  | some _, none => (false, s)
  | some op, some p =>
    if s.pass = 0 then
      (true, emit (emit s 0) 0)
    else
      let r := evalExpr s.pass s.labels s.currentLineNo p
      let addr : ℚ := r.1.getD 0
      let s1 := emit (withErrs s r.2) (op : ℚ)
      if addr < (s1.codePC : ℚ) - 0x600 then
        (true, emit s1 (jsAnd (0xff - (((s1.codePC : ℚ) - 0x600) - addr)) 0xff))
      else
        (true, emit s1 (jsAnd (addr - ((s1.codePC : ℚ) - 0x600) - 1) 0xff))

/-- `Assembler.setPC`: evaluate the target, then
`while (this.codePC < v) this.emit(0)`.  Since `codePC` is an integer that
the loop increments by one, the loop body runs exactly
`max 0 (⌈v⌉ - codePC)` times; the definition uses that closed form. -/
def setPC (s : AsmState) (valueExpr : Expr) : Bool × AsmState :=
  let r := evalExpr s.pass s.labels s.currentLineNo valueExpr
  let s1 := withErrs s r.2
  match r.1 with
  | none => (false, logError s1 "Couldn't evaluate expression value")
  | some v =>
    let n := (⌈v⌉ - s1.codePC).toNat
    (true, { s1 with binary := s1.binary ++ List.replicate n 0, codePC := s1.codePC + n })

/-- The local `tryIntArg` of `Assembler.checkDirectives`: evaluate each
expression in order, emitting one byte (`bits = 8`) or a little-endian word
(otherwise; the source throws `'impossible'` for widths other than 16, and
is only called with 8 or 16). -/
def tryIntArg (s : AsmState) (exprList : List Expr) (bits : ℕ) : Bool × AsmState :=
  match exprList with
  | [] => (true, s)
  | e :: rest =>
    let r := evalExpr s.pass s.labels s.currentLineNo e
    let s1 := withErrs s r.2
    match r.1 with
    | none => (false, logError s1 "Couldn't evaluate expression value")
    | some v =>
      tryIntArg (if bits = 8 then emit s1 v else emit16 s1 v) rest bits

/-- `Assembler.checkDirectives` (the `binary` include directive is not
modelled; an `insn` node never reaches this function from `assembleLine`
and is mapped to the default branch like any unknown `type` tag, which
interpolates the nonexistent field `ast.directive`, printing
`Unknown directive undefined`). -/
def checkDirectives (s : AsmState) : Stmt → Bool × AsmState
  | .byte values => tryIntArg s values 8
  | .word values => tryIntArg s values 16
  | .setpc pc => setPC s pc
  | .unknown => (false, logError s "Unknown directive undefined")
  | .insn _ => (false, logError s "Unknown directive undefined")

/-- `if (r) return r` step of the `assembleLine` check chain: each check
mutates the assembler even when it fails (diagnostics from `evalExpr`), so
the next check starts from the returned state. -/
def tryNext (r : Bool × AsmState) (k : AsmState → Bool × AsmState) : Bool × AsmState :=
  if r.1 then r else k r.2

/-- The instruction arm of `Assembler.assembleLine`: look up the mnemonic
(uppercased) and run the check chain in source order; on fall-through the
source does `console.log('**** ERROR ERROR ERROR ****')` and returns
`false`. -/
def assembleInsn (s : AsmState) (i : Insn) : Bool × AsmState :=
  match List.lookup (toUpperCase i.mnemonic) opcodes with
  | none => (false, logRaw s "**** ERROR ERROR ERROR ****")
  | some op =>
    let noArgs := i.imm.isNone && i.abs.isNone && i.absx.isNone
        && i.absy.isNone && i.absind.isNone
    tryNext (if noArgs then checkSingle s (op.getD 10 nc) else (false, s)) fun s =>
    tryNext (checkImm s i.imm (op.getD 0 nc)) fun s =>
    tryNext (checkAbs s i.abs (op.getD 1 nc) 8) fun s =>
    tryNext (checkAbs s i.absx (op.getD 5 nc) 16) fun s =>
    tryNext (checkAbs s i.absy (op.getD 6 nc) 16) fun s =>
    tryNext (checkAbs s i.absind (op.getD 7 nc) 16) fun s =>
    tryNext (checkAbs s i.abs (op.getD 4 nc) 16) fun s =>
    tryNext (checkBranch s i.abs (op.getD 11 nc)) fun s =>
    (false, logRaw s "**** ERROR ERROR ERROR ****")

/-- The label block at the top of `Assembler.assembleLine` (the caller has
already set `currentLineNo` to the hardcoded 13): on pass 0 record the
label at the current PC, or log the duplicate diagnostic and do a bare
`return` (JavaScript `undefined`, treated as falsy by the caller). -/
def processLabel (s : AsmState) (label : Option String) : Bool × AsmState :=
  match label with
  | none => (true, s)
  | some lbl =>
    if s.pass = 0 then
      match List.lookup lbl s.labels with
      | none => (true, { s with labels := (lbl, ⟨s.codePC, 13⟩) :: s.labels })
      | some old =>
        (false, logError s
          ("Label '" ++ lbl ++ "' already defined on line " ++ toString old.lineNo))
    else (true, s)

/-- `Assembler.assembleLine`.  `null` lines succeed immediately; otherwise
`currentLineNo` is set to the hardcoded
`const lineNo = 13 // TODO stick this in stmt in parser`, the label block
runs (`processLabel`), and then the statement is dispatched: nothing for a
label-only line, `checkDirectives` for non-instruction statements, and the
opcode check chain for instructions. -/
def assembleLine (s0 : AsmState) (line : Option Line) : Bool × AsmState :=
  match line with
  | none => (true, s0)
  | some l =>
    let s := { s0 with currentLineNo := 13 }
    let labelStep := processLabel s l.label
    if labelStep.1 then
      match l.stmt with
      | none => (true, labelStep.2)
      | some (.insn i) => assembleInsn labelStep.2 i
      | some st => checkDirectives labelStep.2 st
    else (false, labelStep.2)

/-- The statement loop of `Assembler.assemble`: on a falsy result, log
`Breaking out.` (via `this.error`) and stop. -/
def assembleLines (s : AsmState) : List (Option Line) → AsmState
  | [] => s
  | l :: rest =>
    let r := assembleLine s l
    if r.1 then assembleLines r.2 rest
    else logError r.2 "Breaking out."

/-- `Assembler.assemble`: emit the BASIC stub, then process every parsed
statement. -/
def assemble (s : AsmState) (statements : List (Option Line)) : AsmState :=
  assembleLines (emitBasicHeader s) statements

/-- The driver (`main` in `part_007`): one assembler instance, pass 0 then
pass 1 over the same source, unconditionally. -/
def runTwoPasses (statements : List (Option Line)) : AsmState :=
  assemble (startPass (assemble (startPass initState 0) statements) 1) statements

/-! ## Disassembler (source file `part_008`, class `Disassembler`) -/

/-- One output line of the disassembler, as passed to `print(addr, bytes,
decoded)`: the address, the 1-3 raw bytes, and - determining the decoded
text `<mnemonic> <operand>` - the mnemonic together with the decoder that
ran (`mode` is the `decoderIdx` column index: `disImm` for 0, `disZp` 1,
`disZpX` 2, `disZpY` 3, `disAbs` 4, `disAbsX` 5, `disAbsY` 6, `disInd` 7,
`disIndX` 8, `disSingle` 10, `disBranch` 11; the operand notation printed
is a function of this index). -/
structure DisLine where
  addr : ℕ
  bytes : List ℕ
  mnemonic : String
  mode : ℕ
deriving DecidableEq, Repr

/-- The reverse opcode map built in the `Disassembler` constructor:
`Object.keys(opcodes).forEach` stores `{ mnemonic, decode }` under every
opcode byte of every row, so for a byte occurring in several rows the last
table entry wins - hence the search over the reversed table. -/
def opToDecl (op : ℕ) : Option (String × List (Option ℕ)) :=
  opcodes.reverse.find? fun p => p.2.contains (some op)

/-- The `while (this.curOffs < len)` loop of `Disassembler.disassemble`,
operating on the not-yet-consumed bytes.  Per iteration: read the opcode
byte, look it up, take `decoderIdx = decl.decode.indexOf(op)` and dispatch:
index 10 consumes no operand byte, indices 0-3, 8 and 11 consume one,
indices 4-7 consume two, and any other index (notably 9, `(Indirect),Y`,
which the dispatch chain skips) falls through without emitting a line.
An unknown opcode also falls through without a line.  Reading an operand
byte past the end of the buffer throws in Node (`buf.readUInt8` range
check), modelled as `none`. -/
def disasmRun (addr : ℕ) : List ℕ → Option (List DisLine)
  | [] => some []
  | op :: rest =>
    match opToDecl op with
    | none => disasmRun (addr + 1) rest
    | some decl =>
      let j := List.indexOf (some op) decl.2
      if j = 10 then
        (disasmRun (addr + 1) rest).map (⟨addr, [op], decl.1, 10⟩ :: ·)
      else if j = 0 ∨ j = 1 ∨ j = 2 ∨ j = 3 ∨ j = 8 ∨ j = 11 then
        match rest with
        | [] => none
        | b :: rest2 => (disasmRun (addr + 2) rest2).map (⟨addr, [op, b], decl.1, j⟩ :: ·)
      else if j = 4 ∨ j = 5 ∨ j = 6 ∨ j = 7 then
        match rest with
        | b1 :: b2 :: rest3 =>
          (disasmRun (addr + 3) rest3).map (⟨addr, [op, b1, b2], decl.1, j⟩ :: ·)
        | _ => none
      else
        disasmRun (addr + 1) rest

/-- `Disassembler.disassemble` on a `.prg` byte image: the constructor reads
the little-endian load address from the first two bytes (throwing when the
buffer is shorter, modelled as `none`), then skips 12 further bytes (the
BASIC stub emitted by the assembler): `curAddr = load + 12`,
`curOffs = 2 + 12`. -/
def disassemble : List ℕ → Option (List DisLine)
  | b0 :: b1 :: rest => disasmRun (b0 + b1 * 256 + 12) (rest.drop 12)
  | _ => none

/-! ## Derived notions used by the theorems -/

/-- Monotonicity relation between assembler states: processing only ever
appends to the output buffer, advances the PC in lock-step with the bytes
appended, and never touches the pass counter. -/
def Grows (s s' : AsmState) : Prop :=
  s'.pass = s.pass ∧ ∃ t, s'.binary = s.binary ++ t ∧ s'.codePC = s.codePC + t.length

/-- The opcode-table columns the assembler can actually emit: Immediate,
ZeroPage, Absolute, Absolute,X, Absolute,Y, Indirect, Implied/Accumulator,
Relative (the ZeroPage,X/Y and indexed-indirect checks are commented out in
`assembleLine`). -/
def emittedCols : List ℕ := [0, 1, 4, 5, 6, 7, 10, 11]

/-- Operand bytes following the opcode byte for a given table column. -/
def operandLen (j : ℕ) : ℕ :=
  if j = 4 ∨ j = 5 ∨ j = 6 ∨ j = 7 then 2 else if j = 10 then 0 else 1

/-- `validEnc (m, j, bs)` holds when `bs` is an encoding of an instruction
of table mnemonic `m` in emittable column `j`: the first byte is the
table's opcode for `(m, j)` and the right number of operand bytes
follows. -/
def validEnc : String × ℕ × List ℕ → Bool
  | (m, j, bs) =>
    emittedCols.contains j &&
      match List.lookup m opcodes, bs with
      | some row, c :: ops => (row.getD j nc == some c) && (ops.length == operandLen j)
      | _, _ => false

/-- Exactness check for the reverse opcode map: for every table row and
every column holding an opcode, `opToDecl` recovers exactly that row and
`indexOf` recovers exactly that column (the official opcode bytes are
pairwise distinct across the table). -/
def tableCheck : Bool :=
  opcodes.all fun p =>
    (List.range 12).all fun j =>
      match p.2.getD j nc with
      | none => true
      | some c => decide (opToDecl c = some p) && (List.indexOf (some c) p.2 == j)

/-- Modelled from the spec: the diagnostic format the specification
prescribes, `"<file>:<line>:<col> - <severity>: <message>"`.  Used only to
compare the implementation's actual output against the spec's format. -/
def specDiagnosticFormat (file : String) (line col : ℕ) (sev msg : String) : String :=
  file ++ ":" ++ toString line ++ ":" ++ toString col ++ " - " ++ sev ++ ": " ++ msg

/-- Convenience constructor for instruction statements. -/
def mkInsn (m : String) (imm abs : Option Expr) : Insn :=
  { mnemonic := m, imm := imm, abs := abs, absx := none, absy := none, absind := none }

/-- The spec scenario `loop: dex` / `bne loop`. -/
def branchProg : List (Option Line) := [
  some { label := some "loop", stmt := some (.insn (mkInsn "dex" none none)) },
  some { label := none, stmt := some (.insn (mkInsn "bne" none (some (.ident "loop")))) }]

/-- The spec scenario `* = $0801` / `lda #$41` / `sta $d020` / `rts`. -/
def helloProg : List (Option Line) := [
  some { label := none, stmt := some (.setpc (.literal 0x801)) },
  some { label := none, stmt := some (.insn (mkInsn "lda" (some (.literal 0x41)) none)) },
  some { label := none, stmt := some (.insn (mkInsn "sta" none (some (.literal 0xd020)))) },
  some { label := none, stmt := some (.insn (mkInsn "rts" none none)) }]

/-- A branch whose displacement `$080d - ($090d + 2) = -258` is far outside
the signed 8-bit range: `loop: dex` / `* = $90d` / `bne loop`. -/
def farBranchProg : List (Option Line) := [
  some { label := some "loop", stmt := some (.insn (mkInsn "dex" none none)) },
  some { label := none, stmt := some (.setpc (.literal 0x90d)) },
  some { label := none, stmt := some (.insn (mkInsn "bne" none (some (.ident "loop")))) }]

/-- `lda 2100 - lab` / `* = 2064` / `lab:`.  The operand evaluates to 2100
on pass 0 (identifiers read as 0) and to `2100 - 2064 = 36` on pass 1. -/
def narrowProg : List (Option Line) := [
  some { label := none,
         stmt := some (.insn (mkInsn "lda" none
           (some (.binary "-" (.literal 2100) (.ident "lab"))))) },
  some { label := none, stmt := some (.setpc (.literal 2064)) },
  some { label := some "lab", stmt := none }]

/-- `lda lab` / `lab:` - a forward reference whose chosen width differs
between pass 0 (ZeroPage, the placeholder value 0 fits) and pass 1
(Absolute, `lab = $080f`). -/
def fwdProg : List (Option Line) := [
  some { label := none, stmt := some (.insn (mkInsn "lda" none (some (.ident "lab")))) },
  some { label := some "lab", stmt := none }]

/-- `lda nope` with `nope` never defined. -/
def undefProg : List (Option Line) := [
  some { label := none, stmt := some (.insn (mkInsn "lda" none (some (.ident "nope")))) }]

/-- `!byte $a9` followed by `rts`: a data byte that is also the LDA
Immediate opcode. -/
def dataProg : List (Option Line) := [
  some { label := none, stmt := some (.byte [.literal 0xa9]) },
  some { label := none, stmt := some (.insn (mkInsn "rts" none none)) }]

/-! ## Arithmetic helper lemmas -/

theorem jsTrunc_intCast (z : ℤ) : jsTrunc (z : ℚ) = z := by
  unfold jsTrunc
  split <;> simp

theorem toUint32_intCast (z : ℤ) : toUint32 (z : ℚ) = ((z % 4294967296).toNat) := by
  unfold toUint32
  rw [jsTrunc_intCast]
  rfl

theorem toUint32_255 : toUint32 (255 : ℚ) = 255 := by
  with_unfolding_all decide

theorem land_255 (u : ℕ) : Nat.land u 255 = u % 256 := by
  have h : Nat.land u 255 = u &&& (2 ^ 8 - 1) := rfl
  rw [h, Nat.and_pow_two_sub_one_eq_mod]

theorem asInt32_small (n : ℕ) (h : n < 2147483648) : asInt32 n = (n : ℤ) := by
  unfold asInt32
  rw [if_pos h]

/-- `x & 0xff` on an integer-valued operand is reduction mod 256. -/
theorem jsAnd_255 (z : ℤ) : jsAnd (z : ℚ) 255 = ((z % 256 : ℤ) : ℚ) := by
  unfold jsAnd
  rw [toUint32_intCast, toUint32_255, land_255]
  have hlt : (z % 4294967296).toNat % 256 < 2147483648 :=
    lt_of_lt_of_le (Nat.mod_lt _ (by norm_num)) (by norm_num)
  rw [asInt32_small _ hlt]
  have hnn : 0 ≤ z % 4294967296 := Int.emod_nonneg z (by norm_num)
  have hcast : (((z % 4294967296).toNat % 256 : ℕ) : ℤ) = (z % 4294967296) % 256 := by
    push_cast [Int.toNat_of_nonneg hnn]
    ring
  have hmod : z % 4294967296 % 256 = z % 256 :=
    Int.emod_emod_of_dvd z (by norm_num)
  rw [hcast, hmod]

/-! ## The append-only discipline of the assembler -/

theorem grows_refl (s : AsmState) : Grows s s :=
  ⟨rfl, [], by simp, by simp⟩

theorem grows_of_eq {s s' : AsmState} (h1 : s'.pass = s.pass) (h2 : s'.binary = s.binary)
    (h3 : s'.codePC = s.codePC) : Grows s s' :=
  ⟨h1, [], by simp [h2], by simp [h3]⟩

theorem grows_trans {s1 s2 s3 : AsmState} (h : Grows s1 s2) (h' : Grows s2 s3) :
    Grows s1 s3 := by
  obtain ⟨hp, t, hb, hc⟩ := h
  obtain ⟨hp', t', hb', hc'⟩ := h'
  exact ⟨hp'.trans hp, t ++ t', by simp [hb', hb], by simp [hc', hc]; ring⟩

theorem grows_emit (s : AsmState) (b : ℚ) : Grows s (emit s b) :=
  ⟨rfl, [b], rfl, by simp [emit]⟩

theorem grows_emit16 (s : AsmState) (w : ℚ) : Grows s (emit16 s w) :=
  grows_trans (grows_emit _ _) (grows_emit _ _)

theorem grows_withErrs (s : AsmState) (es : List String) : Grows s (withErrs s es) :=
  grows_of_eq rfl rfl rfl

theorem grows_logError (s : AsmState) (e : String) : Grows s (logError s e) :=
  grows_of_eq rfl rfl rfl

theorem grows_logRaw (s : AsmState) (e : String) : Grows s (logRaw s e) :=
  grows_of_eq rfl rfl rfl

theorem Grows.emitStep {s1 s2 : AsmState} (h : Grows s1 s2) (b : ℚ) :
    Grows s1 (emit s2 b) :=
  grows_trans h (grows_emit s2 b)

theorem grows_emitBasicHeader (s : AsmState) : Grows s (emitBasicHeader s) := by
  have hfold : ∀ (ds : List ℚ) (x : AsmState),
      Grows x (List.foldl
        (fun acc div => if div ≤ (2061 : ℚ) then emit acc (0x30 + jsMod (2061 / div) 10) else acc)
        x ds) := by
    intro ds
    induction ds with
    | nil => intro x; exact grows_refl x
    | cons d ds ih =>
      intro x
      simp only [List.foldl_cons]
      refine grows_trans ?_ (ih _)
      split
      · exact grows_emit _ _
      · exact grows_refl _
  simp only [emitBasicHeader]
  exact (((grows_trans
    ((((((grows_refl s).emitStep _).emitStep _).emitStep _).emitStep _).emitStep _)
    (hfold _ _)).emitStep _).emitStep _).emitStep _

theorem grows_checkSingle (s : AsmState) (o : Option ℕ) : Grows s (checkSingle s o).2 := by
  unfold checkSingle
  split
  · exact grows_refl s
  · exact grows_emit _ _

theorem grows_checkImm (s : AsmState) (p : Option Expr) (o : Option ℕ) :
    Grows s (checkImm s p o).2 := by
  unfold checkImm
  split
  · exact grows_refl _
  · exact grows_refl _
  · dsimp only
    split
    · exact grows_withErrs _ _
    · split
      · exact grows_withErrs _ _
      · exact ((grows_withErrs _ _).emitStep _).emitStep _

theorem grows_checkAbs (s : AsmState) (p : Option Expr) (o : Option ℕ) (bits : ℕ) :
    Grows s (checkAbs s p o bits).2 := by
  unfold checkAbs
  split
  · exact grows_refl _
  · exact grows_refl _
  · dsimp only
    split
    · exact grows_withErrs _ _
    · split
      · exact grows_withErrs _ _
      · split
        · exact ((grows_withErrs _ _).emitStep _).emitStep _
        · exact grows_trans ((grows_withErrs _ _).emitStep _) (grows_emit16 _ _)

theorem grows_checkBranch (s : AsmState) (p : Option Expr) (o : Option ℕ) :
    Grows s (checkBranch s p o).2 := by
  unfold checkBranch
  split
  · exact grows_refl _
  · exact grows_refl _
  · split
    · exact ((grows_refl _).emitStep _).emitStep _
    · dsimp only
      split
      · exact ((grows_withErrs _ _).emitStep _).emitStep _
      · exact ((grows_withErrs _ _).emitStep _).emitStep _

theorem grows_setPC (s : AsmState) (e : Expr) : Grows s (setPC s e).2 := by
  unfold setPC
  dsimp only
  split
  · exact grows_trans (grows_withErrs _ _) (grows_logError _ _)
  · refine grows_trans (grows_withErrs s _) ⟨rfl, List.replicate _ 0, rfl, ?_⟩
    simp

theorem grows_tryIntArg (es : List Expr) (bits : ℕ) : ∀ s : AsmState,
    Grows s (tryIntArg s es bits).2 := by
  induction es with
  | nil => intro s; exact grows_refl s
  | cons e rest ih =>
    intro s
    unfold tryIntArg
    dsimp only
    split
    · exact grows_trans (grows_withErrs _ _) (grows_logError _ _)
    · refine grows_trans ?_ (ih _)
      split
      · exact (grows_withErrs _ _).emitStep _
      · exact grows_trans (grows_withErrs _ _) (grows_emit16 _ _)

theorem grows_checkDirectives (s : AsmState) (st : Stmt) :
    Grows s (checkDirectives s st).2 := by
  unfold checkDirectives
  split
  · exact grows_tryIntArg _ _ _
  · exact grows_tryIntArg _ _ _
  · exact grows_setPC _ _
  · exact grows_logError _ _
  · exact grows_logError _ _

theorem grows_tryNext {s : AsmState} {r : Bool × AsmState} {k : AsmState → Bool × AsmState}
    (hr : Grows s r.2) (hk : ∀ x, Grows x (k x).2) : Grows s (tryNext r k).2 := by
  unfold tryNext
  split
  · exact hr
  · exact grows_trans hr (hk _)

theorem grows_assembleInsn (s : AsmState) (i : Insn) : Grows s (assembleInsn s i).2 := by
  unfold assembleInsn
  split
  · exact grows_logRaw _ _
  · refine grows_tryNext ?_ fun x => ?_
    · split
      · exact grows_checkSingle _ _
      · exact grows_refl _
    refine grows_tryNext (grows_checkImm _ _ _) fun x => ?_
    refine grows_tryNext (grows_checkAbs _ _ _ _) fun x => ?_
    refine grows_tryNext (grows_checkAbs _ _ _ _) fun x => ?_
    refine grows_tryNext (grows_checkAbs _ _ _ _) fun x => ?_
    refine grows_tryNext (grows_checkAbs _ _ _ _) fun x => ?_
    refine grows_tryNext (grows_checkAbs _ _ _ _) fun x => ?_
    refine grows_tryNext (grows_checkBranch _ _ _) fun x => ?_
    exact grows_logRaw _ _

theorem grows_processLabel (s : AsmState) (lbl : Option String) :
    Grows s (processLabel s lbl).2 := by
  unfold processLabel
  split
  · exact grows_refl _
  · split
    · split
      · exact grows_of_eq rfl rfl rfl
      · exact grows_logError _ _
    · exact grows_refl _

theorem grows_assembleLine (s : AsmState) (l : Option Line) :
    Grows s (assembleLine s l).2 := by
  unfold assembleLine
  split
  · exact grows_refl _
  · dsimp only
    rename_i l
    have hs : Grows s { s with currentLineNo := 13 } := grows_of_eq rfl rfl rfl
    have hlab : Grows s (processLabel { s with currentLineNo := 13 } l.label).2 :=
      grows_trans hs (grows_processLabel _ _)
    split
    · split
      · exact hlab
      · exact grows_trans hlab (grows_assembleInsn _ _)
      · exact grows_trans hlab (grows_checkDirectives _ _)
    · exact hlab

theorem grows_assembleLines (lines : List (Option Line)) : ∀ s : AsmState,
    Grows s (assembleLines s lines) := by
  induction lines with
  | nil => intro s; exact grows_refl s
  | cons l rest ih =>
    intro s
    unfold assembleLines
    dsimp only
    split
    · exact grows_trans (grows_assembleLine _ _) (ih _)
    · exact grows_trans (grows_assembleLine _ _) (grows_logError _ _)

theorem grows_assemble (s : AsmState) (prog : List (Option Line)) :
    Grows s (assemble s prog) :=
  grows_trans (grows_emitBasicHeader s) (grows_assembleLines prog _)

/-- Consequence of `Grows`: starting from a state just reset by
`startPass`, the PC always equals `$0801` plus the number of bytes in the
output buffer. -/
theorem pcInvariant_of_grows {s' : AsmState} {s : AsmState} {p : ℕ}
    (h : Grows (startPass s p) s') : s'.codePC = 0x801 + s'.binary.length := by
  obtain ⟨-, t, hb, hc⟩ := h
  have hbin : (startPass s p).binary = [] := rfl
  have hpc : (startPass s p).codePC = 0x801 := rfl
  rw [hb, hbin, hc, hpc]
  simp

theorem pass_of_grows {s s' : AsmState} (h : Grows s s') : s'.pass = s.pass := h.1

/-! ## Claim C10 -/

/-- **C10**: after `startPass`, at every point during a pass the program
counter `codePC` equals `$0801` plus the number of bytes in the output
buffer - every emission appends exactly one byte and increments `codePC`
by one, and `* = expr` (`setPC`) preserves the invariant by emitting
zero-valued padding bytes from the current PC up to the target address;
when the target is at or below the current PC, `* =` changes neither the
buffer nor the PC and reports no error. -/
theorem c10_pc_invariant :
    (∀ (s : AsmState) (b : ℚ),
      emit s b = { s with binary := s.binary ++ [b], codePC := s.codePC + 1 }) ∧
    (∀ (s : AsmState) (p : ℕ) (lines : List (Option Line)),
      (assemble (startPass s p) lines).codePC
        = 0x801 + (assemble (startPass s p) lines).binary.length) ∧
    (∀ (s : AsmState) (e : Expr) (v : ℤ),
      evalExpr s.pass s.labels s.currentLineNo e = (some (v : ℚ), []) →
      (v ≤ s.codePC → setPC s e = (true, s)) ∧
      (s.codePC < v → (setPC s e).1 = true ∧
        (setPC s e).2.binary = s.binary ++ List.replicate (v - s.codePC).toNat 0 ∧
        (setPC s e).2.codePC = v)) := by
  refine ⟨fun s b => rfl, fun s p lines => pcInvariant_of_grows (grows_assemble _ _), ?_⟩
  intro s e v heval
  unfold setPC
  rw [heval]
  dsimp only [withErrs]
  constructor
  · intro hle
    have hn : (⌈((v : ℤ) : ℚ)⌉ - s.codePC).toNat = 0 := by
      rw [Int.ceil_intCast]
      omega
    rw [hn]
    simp
  · intro hlt
    have hn : (⌈((v : ℤ) : ℚ)⌉ - s.codePC).toNat = (v - s.codePC).toNat := by
      rw [Int.ceil_intCast]
    refine ⟨rfl, by rw [hn], ?_⟩
    dsimp only
    rw [hn]
    omega

/-- Witness for C10: concrete instance of the `setPC` padding clause at
`* = 2060` from the freshly reset state (PC `$0801 = 2049`). -/
theorem c10_pc_invariant_witness :
    (setPC (startPass initState 1) (.literal 2060)).2.binary
        = (startPass initState 1).binary ++ List.replicate ((2060 - (startPass initState 1).codePC).toNat) 0 ∧
    (setPC (startPass initState 1) (.literal 2060)).2.codePC = 2060 := by
  have h := (c10_pc_invariant.2.2 (startPass initState 1) (.literal 2060) 2060 rfl).2
    (by decide)
  exact ⟨h.2.1, h.2.2⟩

/-! ## Claim C1 -/

/-- On a non-zero pass, with the target evaluating to the integer `t`,
`checkBranch` emits the opcode followed by the single byte
`(t - (codePC + 2)) mod 256`: on both sides of the `Backwards?` test the
`& 0xff` masking collapses the source's `0x600`-offset arithmetic
(`0x700 = 7 * 256` respectively `0x600 = 6 * 256` vanish mod 256). -/
theorem checkBranch_offset (s : AsmState) (p : Expr) (c : ℕ) (t : ℤ) (es : List String)
    (hpass : s.pass ≠ 0)
    (heval : evalExpr s.pass s.labels s.currentLineNo p = (some (t : ℚ), es)) :
    checkBranch s (some p) (some c) =
      (true, emit (emit (withErrs s es) (c : ℚ))
        (((t - (s.codePC + 2)) % 256 : ℤ) : ℚ)) := by
  unfold checkBranch
  dsimp only
  rw [if_neg hpass, heval]
  dsimp only [Option.getD_some]
  have hpc : (emit (withErrs s es) (c : ℚ)).codePC = s.codePC + 1 := rfl
  rw [hpc]
  split
  · have h1 : (0xff : ℚ) - ((((s.codePC + 1 : ℤ) : ℚ)) - 0x600 - (t : ℚ))
        = (((255 - (s.codePC + 1 - 1536 - t)) : ℤ) : ℚ) := by
      push_cast
      ring
    rw [h1, jsAnd_255]
    have h2 : (255 - (s.codePC + 1 - 1536 - t)) % 256 = (t - (s.codePC + 2)) % 256 := by
      omega
    rw [h2]
  · have h1 : (t : ℚ) - ((((s.codePC + 1 : ℤ) : ℚ)) - 0x600) - 1
        = (((t - (s.codePC + 1 - 1536) - 1) : ℤ) : ℚ) := by
      push_cast
      ring
    rw [h1, jsAnd_255]
    have h2 : (t - (s.codePC + 1 - 1536) - 1) % 256 = (t - (s.codePC + 2)) % 256 := by
      omega
    rw [h2]

/-- A line with no label and an instruction statement reduces to the
opcode check chain on the state with `currentLineNo := 13`. -/
theorem assembleLine_insn_noLabel (s : AsmState) (i : Insn) :
    assembleLine s (some ⟨none, some (.insn i)⟩)
      = assembleInsn { s with currentLineNo := 13 } i := rfl

/-- For a branch-only opcode row (all operand columns empty except
Relative), the check chain reduces to `checkBranch`. -/
theorem assembleInsn_branch (s : AsmState) (m : String) (row : List (Option ℕ)) (c : ℕ)
    (e : Expr)
    (hrow : List.lookup (toUpperCase m) opcodes = some row)
    (h0 : row.getD 0 nc = none) (h1 : row.getD 1 nc = none)
    (h4 : row.getD 4 nc = none) (h5 : row.getD 5 nc = none)
    (h6 : row.getD 6 nc = none) (h7 : row.getD 7 nc = none)
    (h11 : row.getD 11 nc = some c) :
    assembleInsn s (mkInsn m none (some e)) = checkBranch s (some e) (some c) := by
  unfold assembleInsn
  dsimp only [mkInsn]
  rw [hrow]
  dsimp only
  rw [h0, h1, h4, h5, h6, h7, h11]
  have hb : (checkBranch s (some e) (some c)).1 = true := by
    unfold checkBranch
    split
    · simp_all
    · simp_all
    · split
      · rfl
      · dsimp only
        split <;> rfl
  show tryNext (checkBranch s (some e) (some c))
      (fun s => (false, logRaw s "**** ERROR ERROR ERROR ****"))
    = checkBranch s (some e) (some c)
  unfold tryNext
  rw [hb]
  simp

/-- **C1**: for every branch instruction whose target expression evaluates
to a concrete (integer) value in the final pass (pass 1), the operand byte
emitted after the branch opcode equals `(target - (branch-pc + 2)) mod 256`
- the signed 8-bit PC-relative displacement from the address just after
the 2-byte branch instruction; and in particular the source
`loop: dex` / `bne loop` assembles to a program ending in the instruction
bytes `CA D0 FD` (the `FD` being `-3` as a signed byte). -/
theorem c1_branch_relative_offset (s : AsmState) (m : String) (row : List (Option ℕ))
    (c : ℕ) (e : Expr) (t : ℤ) (es : List String)
    (hrow : List.lookup (toUpperCase m) opcodes = some row)
    (h0 : row.getD 0 nc = none) (h1 : row.getD 1 nc = none)
    (h4 : row.getD 4 nc = none) (h5 : row.getD 5 nc = none)
    (h6 : row.getD 6 nc = none) (h7 : row.getD 7 nc = none)
    (h11 : row.getD 11 nc = some c)
    (hpass : s.pass = 1)
    (heval : evalExpr s.pass s.labels 13 e = (some (t : ℚ), es)) :
    (assembleLine s (some ⟨none, some (.insn (mkInsn m none (some e)))⟩)).1 = true ∧
    (assembleLine s (some ⟨none, some (.insn (mkInsn m none (some e)))⟩)).2.binary
      = s.binary ++ [(c : ℚ), (((t - (s.codePC + 2)) % 256 : ℤ) : ℚ)] ∧
    (prg (runTwoPasses branchProg)).drop 14 = [0xCA, 0xD0, 0xFD] := by
  have hline := assembleLine_insn_noLabel s (mkInsn m none (some e))
  have hchain := assembleInsn_branch { s with currentLineNo := 13 } m row c e
    hrow h0 h1 h4 h5 h6 h7 h11
  have hp13 : ({ s with currentLineNo := 13 } : AsmState).pass ≠ 0 := by
    show s.pass ≠ 0
    omega
  have hoff := checkBranch_offset { s with currentLineNo := 13 } e c t es hp13 heval
  rw [hline, hchain, hoff]
  refine ⟨rfl, ?_, by with_unfolding_all decide⟩
  show ({ s with currentLineNo := 13 } : AsmState).binary ++ [(c : ℚ)]
      ++ [(((t - (s.codePC + 2)) % 256 : ℤ) : ℚ)] = _
  simp

set_option maxRecDepth 8000 in
/-- Witness for C1 at a concrete state: `bne x` assembled at `$0900` on
pass 1 with `x = $08f0` (offset `-18`, emitted as `$EE`). -/
theorem c1_branch_relative_offset_witness :
    (assembleLine { binary := [], codePC := 0x900, pass := 1, labels := [("x", ⟨0x8f0, 13⟩)], errors := [], currentLineNo := 0 } (some ⟨none, some (.insn (mkInsn "bne" none (some (.ident "x"))))⟩)).1 = true ∧
    (assembleLine { binary := [], codePC := 0x900, pass := 1, labels := [("x", ⟨0x8f0, 13⟩)], errors := [], currentLineNo := 0 } (some ⟨none, some (.insn (mkInsn "bne" none (some (.ident "x"))))⟩)).2.binary
      = ([] : List ℚ) ++ [((0xD0 : ℕ) : ℚ), ((((0x8f0 : ℤ) - (0x900 + 2)) % 256 : ℤ) : ℚ)] ∧
    (prg (runTwoPasses branchProg)).drop 14 = [0xCA, 0xD0, 0xFD] :=
  c1_branch_relative_offset _ "bne" [nc, nc, nc, nc, nc, nc, nc, nc, nc, nc, nc, oc 0xD0]
    0xD0 (.ident "x") 0x8f0 [] (by with_unfolding_all decide) rfl rfl rfl rfl rfl rfl rfl rfl
    (by with_unfolding_all decide)

/-! ## Claim C2 -/

set_option maxRecDepth 100000 in
/-- **C2** (code bug, claim right / code wrong): `checkBranch` carries the
comment `// TODO check 8-bit overflow here!!` and performs *no* range
check at all.  On every non-zero pass, whatever value the target
expression evaluates to - however far outside the signed 8-bit range - it
reports success, appends exactly the opcode byte and the displacement
wrapped mod 256, and adds no diagnostic.  Concretely, for the source
`loop: dex` / `* = $90d` / `bne loop` the displacement
`$080d - ($090d + 2) = -258` lies outside `[-128, 127]` and wraps to
`$FE`, yet the two-pass assembly finishes with an empty error list and
270 output bytes ending in `D0 FE` - the claimed range-error diagnostic
and suppressed emission do not exist. -/
theorem c2_branch_out_of_range_not_checked (s : AsmState) (e : Expr) (c : ℕ) (t : ℤ)
    (hpass : s.pass ≠ 0)
    (heval : evalExpr s.pass s.labels s.currentLineNo e = (some (t : ℚ), [])) :
    (checkBranch s (some e) (some c)).1 = true ∧
    (checkBranch s (some e) (some c)).2.binary
      = s.binary ++ [(c : ℚ), (((t - (s.codePC + 2)) % 256 : ℤ) : ℚ)] ∧
    (checkBranch s (some e) (some c)).2.errors = s.errors ∧
    ((0x80d : ℤ) - (0x90d + 2) = -258 ∧ ¬(-128 ≤ (-258 : ℤ) ∧ (-258 : ℤ) ≤ 127) ∧
      (-258 : ℤ) % 256 = 0xFE) ∧
    (runTwoPasses farBranchProg).errors = [] ∧
    (runTwoPasses farBranchProg).binary.length = 270 ∧
    (runTwoPasses farBranchProg).binary.drop 268 = [0xD0, 0xFE] := by
  rw [checkBranch_offset s e c t [] hpass heval]
  refine ⟨rfl, by simp [emit, withErrs], by simp [emit, withErrs], by decide, ?_⟩
  with_unfolding_all decide

set_option maxRecDepth 100000 in
/-- Witness for C2 at the concrete branch of the far-branch program:
`bne loop` assembled at `$090d` on pass 1 with `loop = $080d`
(displacement `-258`). -/
theorem c2_branch_out_of_range_not_checked_witness :
    (checkBranch { binary := [], codePC := 0x90d, pass := 1, labels := [("loop", ⟨0x80d, 13⟩)], errors := [], currentLineNo := 13 } (some (.ident "loop")) (some 0xD0)).1 = true ∧
    (checkBranch { binary := [], codePC := 0x90d, pass := 1, labels := [("loop", ⟨0x80d, 13⟩)], errors := [], currentLineNo := 13 } (some (.ident "loop")) (some 0xD0)).2.binary
      = ([] : List ℚ) ++ [((0xD0 : ℕ) : ℚ), ((((0x80d : ℤ) - (0x90d + 2)) % 256 : ℤ) : ℚ)] ∧
    (checkBranch { binary := [], codePC := 0x90d, pass := 1, labels := [("loop", ⟨0x80d, 13⟩)], errors := [], currentLineNo := 13 } (some (.ident "loop")) (some 0xD0)).2.errors = [] ∧
    ((0x80d : ℤ) - (0x90d + 2) = -258 ∧ ¬(-128 ≤ (-258 : ℤ) ∧ (-258 : ℤ) ≤ 127) ∧
      (-258 : ℤ) % 256 = 0xFE) ∧
    (runTwoPasses farBranchProg).errors = [] ∧
    (runTwoPasses farBranchProg).binary.length = 270 ∧
    (runTwoPasses farBranchProg).binary.drop 268 = [0xD0, 0xFE] :=
  c2_branch_out_of_range_not_checked
    { binary := [], codePC := 0x90d, pass := 1, labels := [("loop", ⟨0x80d, 13⟩)], errors := [], currentLineNo := 13 }
    (.ident "loop") 0xD0 0x80d (by decide) (by with_unfolding_all decide)

/-! ## Claim C3 -/

set_option maxRecDepth 8000 in
/-- **C3 counterexample**: the hello source `* = $0801` / `lda #$41` /
`sta $d020` / `rts` does *not* assemble to the eight bytes
`01 08 A9 41 8D 20 D0 60`: the BASIC stub is emitted before the `* =`
statement is even looked at, so the output is 20 bytes long. -/
theorem c3_hello_has_stub :
    prg (runTwoPasses helloProg)
      = [1, 8, 0x0c, 0x08, 0, 0, 0x9e, 0x32, 0x30, 0x36, 0x31, 0, 0, 0,
         0xA9, 0x41, 0x8D, 0x20, 0xD0, 0x60] ∧
    prg (runTwoPasses helloProg) ≠ [1, 8, 0xA9, 0x41, 0x8D, 0x20, 0xD0, 0x60] := by
  with_unfolding_all decide

set_option maxRecDepth 8000 in
/-- **C3 amended**: the BASIC stub is emitted unconditionally by `assemble`
before any statement (including a leading `* =`) is processed, so for
*every* source the first 14 bytes of the `.prg` output are the load
address `01 08` followed by the 12-byte stub; the hello source assembles to
those 14 bytes followed by `A9 41 8D 20 D0 60`. -/
theorem c3_stub_always_emitted (s : AsmState) (p : ℕ) (lines : List (Option Line)) :
    (prg (assemble (startPass s p) lines)).take 14
      = [1, 8, 0x0c, 0x08, 0, 0, 0x9e, 0x32, 0x30, 0x36, 0x31, 0, 0, 0] ∧
    prg (runTwoPasses helloProg)
      = [1, 8, 0x0c, 0x08, 0, 0, 0x9e, 0x32, 0x30, 0x36, 0x31, 0, 0, 0,
         0xA9, 0x41, 0x8D, 0x20, 0xD0, 0x60] := by
  constructor
  · obtain ⟨-, t, hb, -⟩ := grows_assembleLines lines (emitBasicHeader (startPass s p))
    have hsb : (emitBasicHeader (startPass s p)).binary
        = [12, 8, 0, 0, 0x9e, 0x30 + jsMod (2061 / 1000) 10, 0x30 + jsMod (2061 / 100) 10,
           0x30 + jsMod (2061 / 10) 10, 0x30 + jsMod (2061 / 1) 10, 0, 0, 0] := by
      with_unfolding_all rfl
    show (prg (assembleLines (emitBasicHeader (startPass s p)) lines)).take 14 = _
    unfold prg
    rw [hb, hsb, List.map_append]
    rw [show (14 : ℕ) = 12 + 2 from rfl]
    rw [List.take_cons, List.take_cons, List.take_left']
    all_goals with_unfolding_all decide
  · exact c3_hello_has_stub.1

set_option maxRecDepth 8000 in
/-- Witness for the amended C3 at a concrete input (the empty statement
list, pass 0). -/
theorem c3_stub_always_emitted_witness :
    (prg (assemble (startPass initState 0) [])).take 14
      = [1, 8, 0x0c, 0x08, 0, 0, 0x9e, 0x32, 0x30, 0x36, 0x31, 0, 0, 0] :=
  (c3_stub_always_emitted initState 0 []).1

/-! ## Claim C6 -/

set_option maxRecDepth 8000 in
/-- **C6 counterexample**: on `lda lab` / `lab:` the emitted width for the
instruction differs between pass 0 (two bytes, ZeroPage on the placeholder
value 0) and the final pass (three bytes, Absolute) - the pass is unstable
in the spec's sense - yet the driver stops after its fixed second pass with
no diagnostic whatsoever: there is no instability detection, no iteration
cap and no "did not converge" error in the implementation. -/
theorem c6_no_convergence_loop :
    (assemble (startPass initState 0) fwdProg).binary.length = 14 ∧
    (runTwoPasses fwdProg).binary.length = 15 ∧
    (runTwoPasses fwdProg).errors = [] ∧
    (runTwoPasses fwdProg).pass = 1 := by
  with_unfolding_all decide

/-- **C6 amended**: the driver (`main`) runs exactly two passes - pass 0
then pass 1 - unconditionally for every input; no statement processing ever
changes the pass counter, so the state returned by the driver is always the
result of pass 1 (and the state fed into pass 1 always carries pass index
0).  Termination is trivial: the pass count is fixed at two, not bounded by
a convergence cap, and no "did not converge" diagnostic exists anywhere in
the implementation. -/
theorem c6_exactly_two_passes (lines : List (Option Line)) :
    (runTwoPasses lines).pass = 1 ∧
    (assemble (startPass initState 0) lines).pass = 0 := by
  constructor
  · exact pass_of_grows (grows_assemble (startPass (assemble (startPass initState 0) lines) 1) lines)
  · exact pass_of_grows (grows_assemble (startPass initState 0) lines)

/-- Witness for the amended C6 at a concrete input. -/
theorem c6_exactly_two_passes_witness :
    (runTwoPasses fwdProg).pass = 1 ∧
    (assemble (startPass initState 0) fwdProg).pass = 0 :=
  c6_exactly_two_passes fwdProg

/-! ## Claim C5 -/

theorem checkImm_param_none (s : AsmState) (o : Option ℕ) :
    checkImm s none o = (false, s) := by
  cases o <;> rfl

theorem checkAbs_param_none (s : AsmState) (o : Option ℕ) (bits : ℕ) :
    checkAbs s none o bits = (false, s) := by
  cases o <;> rfl

set_option maxRecDepth 8000 in
theorem jsShl_one_8 : jsShl 1 ((8 : ℕ) : ℚ) = ((256 : ℤ) : ℚ) := by
  unfold jsShl
  rw [show asInt32 ((toUint32 1 <<< (toUint32 ((8 : ℕ) : ℚ) % 32)) % 4294967296) = 256 from by
    with_unfolding_all decide]

set_option maxRecDepth 8000 in
theorem jsShl_one_16 : jsShl 1 ((16 : ℕ) : ℚ) = ((65536 : ℤ) : ℚ) := by
  unfold jsShl
  rw [show asInt32 ((toUint32 1 <<< (toUint32 ((16 : ℕ) : ℚ) % 32)) % 4294967296) = 65536 from by
    with_unfolding_all decide]

/-- `>> 8` on a small non-negative integer is division by 256. -/
theorem jsShr_8_small (v : ℤ) (h0 : 0 ≤ v) (h : v < 2147483648) :
    jsShr (v : ℚ) 8 = ((v / 256 : ℤ) : ℚ) := by
  unfold jsShr jsToInt32
  rw [toUint32_intCast]
  have h8 : toUint32 (8 : ℚ) % 32 = 8 := by with_unfolding_all decide
  rw [h8]
  have hemod : v % 4294967296 = v := Int.emod_eq_of_lt h0 (by omega)
  rw [hemod]
  have hlt : v.toNat < 2147483648 := by omega
  rw [asInt32_small _ hlt, Int.toNat_of_nonneg h0]
  rw [Int.shiftRight_eq_div_pow]
  norm_num

set_option maxRecDepth 100000 in
/-- **C5 counterexample**: for `lda 2100 - lab` / `* = 2064` / `lab:` the
operand evaluates to 2100 (outside `[0, 255]`) on pass 0, where the
Absolute encoding `AD 34 08` is emitted, yet the final output uses the
ZeroPage encoding `A5 24` - the encoding in the final output is chosen
from the *current* pass's value only, not from "the value in every
pass". -/
theorem c5_narrowing_uses_current_pass_only :
    (assemble (startPass initState 0) narrowProg).binary.drop 12 = [0xAD, 0x34, 0x08] ∧
    (runTwoPasses narrowProg).binary.drop 12 = [0xA5, 0x24, 0] ∧
    (evalExpr 0 [] 13 (.binary "-" (.literal 2100) (.ident "lab"))).1
      = some (((2100 : ℤ) : ℚ)) ∧
    ¬ ((2100 : ℤ) ≤ 255) := by
  with_unfolding_all decide

/-- Evaluation of `checkAbs` on present opcode and operand: range-check the
current value against `[0, 1 << bits)` and emit opcode plus byte or
little-endian word. -/
theorem checkAbs_some_eval (s : AsmState) (e : Expr) (c : ℕ) (bits : ℕ) (v : ℚ)
    (es : List String)
    (heval : evalExpr s.pass s.labels s.currentLineNo e = (some v, es)) :
    checkAbs s (some e) (some c) bits =
      if v < 0 ∨ jsShl 1 (bits : ℚ) ≤ v then (false, withErrs s es)
      else if bits = 8 then (true, emit (emit (withErrs s es) (c : ℚ)) v)
      else (true, emit16 (emit (withErrs s es) (c : ℚ)) v) := by
  unfold checkAbs
  dsimp only
  rw [heval]

/-- **C5 amended**: the emitter chooses between ZeroPage and Absolute from
the operand's value *in the current pass alone*: for a mnemonic with both
a ZeroPage and an Absolute opcode and a plain `expr` operand evaluating to
`v ∈ [0, 65536)` in this pass, the ZeroPage bytes `czp v` are emitted when
`v ≤ 255` and the Absolute bytes `cabs (v % 256) (v / 256 % 256)` when
`255 < v` - regardless of the operand's value in any other pass (the
counterexample shows the final output using ZeroPage although the pass-0
value was 2100).  The claim's concrete example `zp = $10` / `lda zp` is not
representable: constants are unimplemented (`// TODO can also be a
constant` in `evalExpr`), identifiers resolve through the label table
only. -/
theorem c5_narrowing_amended (s : AsmState) (m : String) (row : List (Option ℕ))
    (czp cabs : ℕ) (e : Expr) (v : ℤ) (es : List String)
    (hrow : List.lookup (toUpperCase m) opcodes = some row)
    (hzp : row.getD 1 nc = some czp)
    (habs : row.getD 4 nc = some cabs)
    (heval : evalExpr s.pass s.labels 13 e = (some (v : ℚ), es))
    (h0 : 0 ≤ v) (hv : v < 65536) :
    (assembleLine s (some ⟨none, some (.insn (mkInsn m none (some e)))⟩)).1 = true ∧
    (v ≤ 255 →
      (assembleLine s (some ⟨none, some (.insn (mkInsn m none (some e)))⟩)).2.binary
        = s.binary ++ [(czp : ℚ), (v : ℚ)]) ∧
    (255 < v →
      (assembleLine s (some ⟨none, some (.insn (mkInsn m none (some e)))⟩)).2.binary
        = s.binary ++ [(cabs : ℚ), ((v % 256 : ℤ) : ℚ), ((v / 256 % 256 : ℤ) : ℚ)]) := by
  rw [assembleLine_insn_noLabel]
  unfold assembleInsn
  dsimp only [mkInsn]
  rw [hrow]
  dsimp only
  simp only [tryNext, checkImm_param_none, checkAbs_param_none, hzp, habs,
    Option.isNone_none, Option.isNone_some, Bool.and_self, Bool.true_and, Bool.false_and,
    Bool.and_false, Bool.and_true, Bool.false_eq_true, if_false]
  rw [checkAbs_some_eval _ e czp 8 (v : ℚ) es heval, jsShl_one_8]
  rcases le_or_lt v 255 with hle | hgt
  · have hcond : ¬(((v : ℤ) : ℚ) < 0 ∨ (((256 : ℤ) : ℚ)) ≤ ((v : ℤ) : ℚ)) := by
      rw [not_or]
      constructor
      · exact not_lt.mpr (by exact_mod_cast h0)
      · exact not_le.mpr (by exact_mod_cast (by omega : v < 256))
    rw [if_neg hcond, if_pos rfl]
    refine ⟨rfl, fun _ => ?_, fun h => absurd h (not_lt.mpr hle)⟩
    show (emit (emit (withErrs _ es) (czp : ℚ)) ((v : ℤ) : ℚ)).binary = _
    simp [emit, withErrs]
  · have hcond : (((v : ℤ) : ℚ) < 0 ∨ (((256 : ℤ) : ℚ)) ≤ ((v : ℤ) : ℚ)) :=
      Or.inr (by exact_mod_cast (by omega : (256 : ℤ) ≤ v))
    rw [if_pos hcond]
    simp only [Bool.false_eq_true, if_false]
    rw [checkAbs_some_eval _ e cabs 16 (v : ℚ) es heval, jsShl_one_16]
    have hcond2 : ¬(((v : ℤ) : ℚ) < 0 ∨ (((65536 : ℤ) : ℚ)) ≤ ((v : ℤ) : ℚ)) := by
      rw [not_or]
      constructor
      · exact not_lt.mpr (by exact_mod_cast h0)
      · exact not_le.mpr (by exact_mod_cast hv)
    rw [if_neg hcond2, if_neg (by decide : ¬ (16 = 8))]
    refine ⟨rfl, fun h => absurd hgt (not_lt.mpr h), fun _ => ?_⟩
    show (emit16 (emit (withErrs _ es) (cabs : ℚ)) ((v : ℤ) : ℚ)).binary = _
    unfold emit16
    rw [jsAnd_255 v, jsShr_8_small v h0 (by omega), jsAnd_255 (v / 256)]
    simp [emit, withErrs]

set_option maxRecDepth 8000 in
/-- Witness for the amended C5: `lda 768` on pass 1 chooses Absolute
(`AD 00 03`); the hypotheses are discharged on the LDA table row. -/
theorem c5_narrowing_amended_witness :
    (assembleLine (startPass initState 1) (some ⟨none, some (.insn (mkInsn "lda" none (some (.literal 768))))⟩)).1 = true ∧
    ((768 : ℤ) ≤ 255 →
      (assembleLine (startPass initState 1) (some ⟨none, some (.insn (mkInsn "lda" none (some (.literal 768))))⟩)).2.binary
        = (startPass initState 1).binary ++ [((0xA5 : ℕ) : ℚ), (((768 : ℤ)) : ℚ)]) ∧
    ((255 : ℤ) < 768 →
      (assembleLine (startPass initState 1) (some ⟨none, some (.insn (mkInsn "lda" none (some (.literal 768))))⟩)).2.binary
        = (startPass initState 1).binary
          ++ [((0xAD : ℕ) : ℚ), (((768 : ℤ) % 256 : ℤ) : ℚ), (((768 : ℤ) / 256 % 256 : ℤ) : ℚ)]) :=
  c5_narrowing_amended (startPass initState 1) "lda"
    [oc 0xA9, oc 0xA5, oc 0xB5, nc, oc 0xAD, oc 0xBD, oc 0xB9, nc, oc 0xA1, oc 0xB1, nc, nc]
    0xA5 0xAD (.literal 768) 768 [] (by with_unfolding_all decide) rfl rfl rfl
    (by decide) (by decide)

/-! ## Claim C7 -/

theorem asInt32_range (n : ℕ) (h : n < 4294967296) :
    -2147483648 ≤ asInt32 n ∧ asInt32 n < 2147483648 := by
  unfold asInt32
  split <;> omega

set_option maxRecDepth 8000 in
/-- **C7 counterexample**: the evaluator does not use 64-bit
two's-complement integer semantics.  `1 << 64` evaluates to `1` (the shift
count is reduced mod 32, JavaScript-style) with *no* diagnostic, although
the claim demands an error for shift counts outside `[0, 63]`; and `5 / 2`
evaluates to the non-integer rational `5/2` (IEEE float division) with no
error, although the claim demands integer division. -/
theorem c7_not_64bit_integer_semantics :
    evalExpr 0 [] 13 (.binary "<<" (.literal 1) (.literal 64)) = (some ((1 : ℤ) : ℚ), []) ∧
    evalExpr 0 [] 13 (.binary "/" (.literal 5) (.literal 2)) = (some ((5 : ℚ) / 2), []) ∧
    ((5 : ℚ) / 2).den = 2 := by
  refine ⟨by with_unfolding_all decide, rfl, by with_unfolding_all decide⟩

/-- **C7 amended**: expression arithmetic follows JavaScript number
semantics, not 64-bit two's-complement.  `/` is IEEE double division: it
never reports a diagnostic for *any* operands - a zero divisor yields
`Infinity`, still without an error, so the no-error conjunct is stated
for every divisor - and whenever the exact rational quotient of integer
operands below `2^53` is itself a representable double (`reprDouble`),
the correctly-rounded result *is* that exact quotient, so the value
conjuncts are stated on exactly that region.  The shift count of `<<` is
reduced mod 32, so counts outside `[0, 63]` are *not* errors and shifting
by `b + 32` equals shifting by `b`; and every `<<` result lies in the
signed **32-bit** range. -/
theorem c7_js_arith_amended (p : ℕ) (lbls : List (String × Label)) (ln : ℕ) (a b : ℤ)
    (ha : a.natAbs < 2 ^ 53) (hb : b.natAbs < 2 ^ 52) (hb0 : b ≠ 0)
    (hq : reprDouble ((a : ℚ) / (b : ℚ))) :
    evalExpr p lbls ln (.binary "/" (.literal a) (.literal b))
      = (some ((a : ℚ) / (b : ℚ)), []) ∧
    ((a : ℚ) / (b : ℚ)) * (b : ℚ) = (a : ℚ) ∧
    (∀ c d : ℤ, (evalExpr p lbls ln (.binary "/" (.literal c) (.literal d))).2 = []) ∧
    evalExpr p lbls ln (.binary "<<" (.literal a) (.literal (b + 32)))
      = evalExpr p lbls ln (.binary "<<" (.literal a) (.literal b)) ∧
    (∀ w : ℚ, (evalExpr p lbls ln (.binary "<<" (.literal a) (.literal b))).1 = some w →
      ∃ z : ℤ, w = (z : ℚ) ∧ -2147483648 ≤ z ∧ z < 2147483648) := by
  refine ⟨rfl, div_mul_cancel₀ _ (by exact_mod_cast hb0), fun c d => rfl, ?_, ?_⟩
  · show (some (jsShl (a : ℚ) ((b + 32 : ℤ) : ℚ)), ([] : List String))
        = (some (jsShl (a : ℚ) ((b : ℤ) : ℚ)), ([] : List String))
    have hsh : toUint32 ((b + 32 : ℤ) : ℚ) % 32 = toUint32 ((b : ℤ) : ℚ) % 32 := by
      rw [toUint32_intCast, toUint32_intCast]
      have k1 : (b + 32) % 4294967296 % 32 = (b + 32) % 32 :=
        Int.emod_emod_of_dvd _ (by norm_num)
      have k2 : b % 4294967296 % 32 = b % 32 :=
        Int.emod_emod_of_dvd _ (by norm_num)
      have n1 : (((b + 32) % 4294967296).toNat : ℤ) % 32
          = ((b % 4294967296).toNat : ℤ) % 32 := by
        rw [Int.toNat_of_nonneg (Int.emod_nonneg (b + 32) (by norm_num : (4294967296 : ℤ) ≠ 0)),
          Int.toNat_of_nonneg (Int.emod_nonneg b (by norm_num : (4294967296 : ℤ) ≠ 0)), k1, k2]
        omega
      exact_mod_cast n1
    unfold jsShl
    rw [hsh]
  · intro w hw
    have hw' : w = jsShl (a : ℚ) ((b : ℤ) : ℚ) := by
      have : (evalExpr p lbls ln (.binary "<<" (.literal a) (.literal b))).1
          = some (jsShl (a : ℚ) ((b : ℤ) : ℚ)) := rfl
      rw [this] at hw
      exact (Option.some_inj.mp hw).symm
    refine ⟨asInt32 ((toUint32 (a : ℚ) <<< (toUint32 ((b : ℤ) : ℚ) % 32)) % 4294967296),
      hw', ?_⟩
    exact asInt32_range _ (Nat.mod_lt _ (by norm_num))

set_option maxRecDepth 8000 in
/-- Witness for the amended C7 at `a = 5`, `b = 2`: the quotient `5 / 2`
is the representable double `5 * 2 ^ (-1)`. -/
theorem c7_js_arith_amended_witness :
    evalExpr 0 [] 13 (.binary "/" (.literal 5) (.literal 2))
      = (some (((5 : ℤ) : ℚ) / ((2 : ℤ) : ℚ)), []) ∧
    (((5 : ℤ) : ℚ) / ((2 : ℤ) : ℚ)) * ((2 : ℤ) : ℚ) = ((5 : ℤ) : ℚ) ∧
    (∀ c d : ℤ, (evalExpr 0 [] 13 (.binary "/" (.literal c) (.literal d))).2 = []) ∧
    evalExpr 0 [] 13 (.binary "<<" (.literal 5) (.literal (2 + 32)))
      = evalExpr 0 [] 13 (.binary "<<" (.literal 5) (.literal 2)) ∧
    (∀ w : ℚ, (evalExpr 0 [] 13 (.binary "<<" (.literal 5) (.literal 2))).1 = some w →
      ∃ z : ℤ, w = (z : ℚ) ∧ -2147483648 ≤ z ∧ z < 2147483648) :=
  c7_js_arith_amended 0 [] 13 5 2 (by decide) (by decide) (by decide)
    ⟨5, -1, by decide, by decide, by decide, by norm_num⟩

/-! ## Claim C8 -/

set_option maxRecDepth 8000 in
/-- **C8 counterexample**: `!byte 300` - a value outside the claimed
`[-128, 255]` check range - produces *no* diagnostic and pushes the raw,
untruncated value 300 into the output buffer; `!word 70000` - outside
`[-32768, 65535]` - likewise produces no diagnostic and silently emits the
masked bytes `70 11`. -/
theorem c8_byte_word_no_range_check :
    (checkDirectives (startPass initState 1) (.byte [.literal 300])).1 = true ∧
    (checkDirectives (startPass initState 1) (.byte [.literal 300])).2.binary
      = [((300 : ℤ) : ℚ)] ∧
    (checkDirectives (startPass initState 1) (.byte [.literal 300])).2.errors = [] ∧
    (checkDirectives (startPass initState 1) (.word [.literal 70000])).1 = true ∧
    (checkDirectives (startPass initState 1) (.word [.literal 70000])).2.binary
      = [((0x70 : ℤ) : ℚ), ((0x11 : ℤ) : ℚ)] ∧
    (checkDirectives (startPass initState 1) (.word [.literal 70000])).2.errors = [] := by
  with_unfolding_all decide

/-- `tryIntArg` with `bits = 8` on cleanly evaluating expressions emits
each value raw - no range check, no truncation, no diagnostic. -/
theorem tryIntArg_8_clean (es : List Expr) : ∀ (vs : List ℚ) (s : AsmState),
    es.map (fun e => evalExpr s.pass s.labels s.currentLineNo e)
      = vs.map (fun v => (some v, ([] : List String))) →
    tryIntArg s es 8
      = (true, { s with binary := s.binary ++ vs, codePC := s.codePC + vs.length }) := by
  induction es with
  | nil =>
    intro vs s h
    have hvs : vs = [] := by
      cases vs with
      | nil => rfl
      | cons v vrest => simp at h
    subst hvs
    show (true, s) = _
    simp
  | cons e rest ih =>
    intro vs s h
    cases vs with
    | nil => simp at h
    | cons v vrest =>
      simp only [List.map_cons, List.cons.injEq] at h
      obtain ⟨hhead, htail⟩ := h
      unfold tryIntArg
      dsimp only
      rw [hhead]
      dsimp only
      rw [if_pos rfl]
      rw [ih vrest (emit (withErrs s []) v) htail]
      simp [emit, withErrs]
      ring

/-- `ToInt32` is the identity on the signed 32-bit range. -/
theorem jsToInt32_small (v : ℤ) (h1 : -2147483648 ≤ v) (h2 : v < 2147483648) :
    jsToInt32 (v : ℚ) = v := by
  unfold jsToInt32 asInt32
  rw [toUint32_intCast]
  split <;> omega

/-- **C8 amended**: `!byte` emits each argument's evaluated value raw -
with no `[-128, 255]` range check, no truncation and no diagnostic
(reduction mod 256 happens only when the final buffer is built, in `prg`);
`!word` emits `value & 0xff` and `(value >> 8) & 0xff` - two little-endian
masked bytes - again with no range check and no diagnostic. -/
theorem c8_data_amended (s : AsmState) (es : List Expr) (vs : List ℚ)
    (h : es.map (fun e => evalExpr s.pass s.labels s.currentLineNo e)
      = vs.map (fun v => (some v, ([] : List String)))) :
    checkDirectives s (.byte es)
      = (true, { s with binary := s.binary ++ vs, codePC := s.codePC + vs.length }) ∧
    (∀ (e : Expr) (v : ℤ), evalExpr s.pass s.labels s.currentLineNo e = (some (v : ℚ), []) →
      0 ≤ v → v < 2147483648 →
      checkDirectives s (.word [e])
        = (true, { s with codePC := s.codePC + 2, binary :=
            s.binary ++ [((v % 256 : ℤ) : ℚ), ((v / 256 % 256 : ℤ) : ℚ)] })) := by
  constructor
  · exact tryIntArg_8_clean es vs s h
  · intro e v he h0 hv
    show tryIntArg s [e] 16 = _
    unfold tryIntArg
    dsimp only
    rw [he]
    dsimp only
    rw [if_neg (by decide : ¬ (16 = 8))]
    show (true, emit16 (withErrs s []) ((v : ℤ) : ℚ)) = _
    unfold emit16
    rw [jsAnd_255 v, jsShr_8_small v h0 hv, jsAnd_255 (v / 256)]
    simp [emit, withErrs]
    ring

set_option maxRecDepth 8000 in
/-- Witness for the amended C8: `!byte 300` and `!word 70000` from the
freshly reset pass-1 state. -/
theorem c8_data_amended_witness :
    checkDirectives (startPass initState 1) (.byte [.literal 300])
      = (true, { startPass initState 1 with
          binary := (startPass initState 1).binary ++ [((300 : ℤ) : ℚ)],
          codePC := (startPass initState 1).codePC + ([((300 : ℤ) : ℚ)] : List ℚ).length }) ∧
    checkDirectives (startPass initState 1) (.word [.literal 70000])
      = (true, { startPass initState 1 with
          codePC := (startPass initState 1).codePC + 2,
          binary := (startPass initState 1).binary
            ++ [(((70000 : ℤ) % 256 : ℤ) : ℚ), (((70000 : ℤ) / 256 % 256 : ℤ) : ℚ)] }) := by
  have h := c8_data_amended (startPass initState 1) [.literal 300] [((300 : ℤ) : ℚ)] rfl
  exact ⟨h.1, h.2 (.literal 70000) 70000 rfl (by decide) (by decide)⟩

/-! ## Claim C9 -/

theorem data_append (a b : String) : (a ++ b).data = a.data ++ b.data := rfl

set_option maxRecDepth 8000 in
/-- **C9** (code bug, claim right / code wrong): every diagnostic is
produced by `Assembler.error`, which prints
`` `src/foo.asm:${currentLineNo} - ${err}` `` - the file name is the
hardcoded placeholder `src/foo.asm` (not the file being assembled) and
`currentLineNo` is the hardcoded 13 (`// TODO stick this in stmt in
parser`), with no column and no severity.  Concretely, assembling the
one-line source `lda nope` puts
`"src/foo.asm:13 - Undefined label 'nope'"` first in the log, and that
string cannot be decomposed as the spec's
`"<file>:<line>:<col> - <severity>: <message>"` for *any* file, line,
column, severity and message (counting `':'` occurrences: the spec format
contains at least three, the actual string exactly one). -/
theorem c9_diagnostic_format_bug :
    (runTwoPasses undefProg).errors.head?
      = some "src/foo.asm:13 - Undefined label 'nope'" ∧
    ¬ ∃ (file : String) (line col : ℕ) (sev msg : String),
        "src/foo.asm:13 - Undefined label 'nope'"
          = specDiagnosticFormat file line col sev msg := by
  constructor
  · with_unfolding_all decide
  · rintro ⟨f, l, c, sev, msg, heq⟩
    rw [specDiagnosticFormat] at heq
    have hd := congrArg String.data heq
    simp only [data_append] at hd
    have hcount := congrArg (List.count ':') hd
    simp only [List.count_append] at hcount
    have e0 : List.count ':' ("src/foo.asm:13 - Undefined label 'nope'" : String).data = 1 := by
      decide
    have e1 : List.count ':' (":" : String).data = 1 := by decide
    have e2 : List.count ':' (" - " : String).data = 0 := by decide
    have e3 : List.count ':' (": " : String).data = 1 := by decide
    simp only [e0, e1, e2, e3] at hcount
    omega

/-! ## Claim C4 -/

set_option maxRecDepth 100000 in
/-- The reverse opcode map is exact on the whole table (checked by
computation over all 56 rows and 12 columns). -/
theorem tableCheck_true : tableCheck = true := by decide

/-- A successful association-list lookup yields a member pair. -/
theorem lookup_mem {α β : Type} [BEq α] [LawfulBEq α] {k : α} {v : β} :
    ∀ {l : List (α × β)}, List.lookup k l = some v → (k, v) ∈ l := by
  intro l
  induction l with
  | nil => intro h; simp [List.lookup] at h
  | cons p rest ih =>
    obtain ⟨a, b⟩ := p
    intro h
    simp only [List.lookup] at h
    split at h
    · rename_i hbeq
      have hk : k = a := eq_of_beq hbeq
      have hv : b = v := by injection h
      subst hk
      subst hv
      exact List.mem_cons_self _ _
    · exact List.mem_cons_of_mem _ (ih h)

/-- Decoding an opcode byte taken from the table at `(m, row)`, column `j`,
recovers that mnemonic, row and column. -/
theorem table_decode {m : String} {row : List (Option ℕ)} {j c : ℕ}
    (hm : List.lookup m opcodes = some row) (hj : j < 12)
    (hc : row.getD j nc = some c) :
    opToDecl c = some (m, row) ∧ List.indexOf (some c) row = j := by
  have hmem := lookup_mem hm
  have ht := tableCheck_true
  rw [tableCheck, List.all_eq_true] at ht
  have h1 := ht (m, row) hmem
  rw [List.all_eq_true] at h1
  have h2 := h1 j (List.mem_range.mpr hj)
  dsimp only at h2
  rw [hc] at h2
  rw [Bool.and_eq_true] at h2
  exact ⟨of_decide_eq_true h2.1, eq_of_beq h2.2⟩

theorem disasmRun_step10 (addr : ℕ) (c : ℕ) (rest : List ℕ) {m : String}
    {row : List (Option ℕ)} (hdecode : opToDecl c = some (m, row))
    (hidx : List.indexOf (some c) row = 10) :
    disasmRun addr (c :: rest)
      = (disasmRun (addr + 1) rest).map (⟨addr, [c], m, 10⟩ :: ·) := by
  unfold disasmRun
  rw [hdecode]
  dsimp only
  rw [hidx]
  rw [if_pos rfl]
  congr 1
  rw [disasmRun.eq_def]

theorem disasmRun_step1 (addr : ℕ) (c b : ℕ) (rest : List ℕ) {m : String}
    {row : List (Option ℕ)} {j : ℕ} (hdecode : opToDecl c = some (m, row))
    (hidx : List.indexOf (some c) row = j)
    (hj : j = 0 ∨ j = 1 ∨ j = 2 ∨ j = 3 ∨ j = 8 ∨ j = 11) :
    disasmRun addr (c :: b :: rest)
      = (disasmRun (addr + 2) rest).map (⟨addr, [c, b], m, j⟩ :: ·) := by
  unfold disasmRun
  rw [hdecode]
  dsimp only
  rw [hidx]
  rw [if_neg (by rcases hj with rfl|rfl|rfl|rfl|rfl|rfl <;> decide)]
  rw [if_pos hj]
  congr 1
  rw [disasmRun.eq_def]

theorem disasmRun_step2 (addr : ℕ) (c b1 b2 : ℕ) (rest : List ℕ) {m : String}
    {row : List (Option ℕ)} {j : ℕ} (hdecode : opToDecl c = some (m, row))
    (hidx : List.indexOf (some c) row = j)
    (hj : j = 4 ∨ j = 5 ∨ j = 6 ∨ j = 7) :
    disasmRun addr (c :: b1 :: b2 :: rest)
      = (disasmRun (addr + 3) rest).map (⟨addr, [c, b1, b2], m, j⟩ :: ·) := by
  unfold disasmRun
  rw [hdecode]
  dsimp only
  rw [hidx]
  rw [if_neg (by rcases hj with rfl|rfl|rfl|rfl <;> decide)]
  rw [if_neg (by rcases hj with rfl|rfl|rfl|rfl <;> decide)]
  rw [if_pos hj]
  congr 1
  rw [disasmRun.eq_def]

theorem disasm_stream (insns : List (String × ℕ × List ℕ)) : ∀ addr : ℕ,
    (∀ x ∈ insns, validEnc x = true) →
    ∃ ls, disasmRun addr (insns.flatMap (fun x => x.2.2)) = some ls ∧
      ls.map (fun l => (l.mnemonic, l.mode)) = insns.map (fun x => (x.1, x.2.1)) := by
  induction insns with
  | nil => intro addr _; exact ⟨[], rfl, rfl⟩
  | cons x rest ih =>
    intro addr h
    obtain ⟨m, j, bs⟩ := x
    have hrest : ∀ y ∈ rest, validEnc y = true := fun y hy => h y (List.mem_cons_of_mem _ hy)
    have hx := h _ (List.mem_cons_self _ _)
    unfold validEnc at hx
    dsimp only at hx
    cases hlk : List.lookup m opcodes with
    | none =>
      rw [hlk] at hx
      cases bs <;> simp at hx
    | some row =>
      rw [hlk] at hx
      cases bs with
      | nil => simp at hx
      | cons c ops =>
        dsimp only at hx
        rw [Bool.and_eq_true, Bool.and_eq_true] at hx
        obtain ⟨hcols, hrowj, hlen⟩ := hx
        have hjmem : j ∈ emittedCols := List.mem_of_elem_eq_true hcols
        have hrowj' : row.getD j nc = some c := eq_of_beq hrowj
        have hlen' : ops.length = operandLen j := eq_of_beq hlen
        have hj12 : j < 12 := by
          simp only [emittedCols, List.mem_cons, List.not_mem_nil, or_false] at hjmem
          rcases hjmem with rfl|rfl|rfl|rfl|rfl|rfl|rfl|rfl <;> decide
        have hdec := table_decode hlk hj12 hrowj'
        rw [List.flatMap_cons]
        simp only [emittedCols, List.mem_cons, List.not_mem_nil, or_false] at hjmem
        rcases hjmem with rfl|rfl|rfl|rfl|rfl|rfl|rfl|rfl
        -- j = 0
        · norm_num [operandLen] at hlen'
          obtain ⟨b, rfl⟩ := List.length_eq_one.mp hlen'
          obtain ⟨ls, hrun, hmap⟩ := ih (addr + 2) hrest
          refine ⟨⟨addr, [c, b], m, 0⟩ :: ls, ?_, by simp [hmap]⟩
          show disasmRun addr (c :: b :: rest.flatMap (fun x => x.2.2)) = _
          rw [disasmRun_step1 addr c b _ hdec.1 hdec.2 (by norm_num), hrun]
          rfl
        -- j = 1
        · norm_num [operandLen] at hlen'
          obtain ⟨b, rfl⟩ := List.length_eq_one.mp hlen'
          obtain ⟨ls, hrun, hmap⟩ := ih (addr + 2) hrest
          refine ⟨⟨addr, [c, b], m, 1⟩ :: ls, ?_, by simp [hmap]⟩
          show disasmRun addr (c :: b :: rest.flatMap (fun x => x.2.2)) = _
          rw [disasmRun_step1 addr c b _ hdec.1 hdec.2 (by norm_num), hrun]
          rfl
        -- j = 4
        · norm_num [operandLen] at hlen'
          obtain ⟨b1, b2, rfl⟩ : ∃ b1 b2, ops = [b1, b2] := by
            cases ops with
            | nil => simp at hlen'
            | cons b1 t =>
              cases t with
              | nil => simp at hlen'
              | cons b2 t2 =>
                cases t2 with
                | nil => exact ⟨b1, b2, rfl⟩
                | cons b3 t3 => simp at hlen'
          obtain ⟨ls, hrun, hmap⟩ := ih (addr + 3) hrest
          refine ⟨⟨addr, [c, b1, b2], m, 4⟩ :: ls, ?_, by simp [hmap]⟩
          show disasmRun addr (c :: b1 :: b2 :: rest.flatMap (fun x => x.2.2)) = _
          rw [disasmRun_step2 addr c b1 b2 _ hdec.1 hdec.2 (by norm_num), hrun]
          rfl
        -- j = 5
        · norm_num [operandLen] at hlen'
          obtain ⟨b1, b2, rfl⟩ : ∃ b1 b2, ops = [b1, b2] := by
            cases ops with
            | nil => simp at hlen'
            | cons b1 t =>
              cases t with
              | nil => simp at hlen'
              | cons b2 t2 =>
                cases t2 with
                | nil => exact ⟨b1, b2, rfl⟩
                | cons b3 t3 => simp at hlen'
          obtain ⟨ls, hrun, hmap⟩ := ih (addr + 3) hrest
          refine ⟨⟨addr, [c, b1, b2], m, 5⟩ :: ls, ?_, by simp [hmap]⟩
          show disasmRun addr (c :: b1 :: b2 :: rest.flatMap (fun x => x.2.2)) = _
          rw [disasmRun_step2 addr c b1 b2 _ hdec.1 hdec.2 (by norm_num), hrun]
          rfl
        -- j = 6
        · norm_num [operandLen] at hlen'
          obtain ⟨b1, b2, rfl⟩ : ∃ b1 b2, ops = [b1, b2] := by
            cases ops with
            | nil => simp at hlen'
            | cons b1 t =>
              cases t with
              | nil => simp at hlen'
              | cons b2 t2 =>
                cases t2 with
                | nil => exact ⟨b1, b2, rfl⟩
                | cons b3 t3 => simp at hlen'
          obtain ⟨ls, hrun, hmap⟩ := ih (addr + 3) hrest
          refine ⟨⟨addr, [c, b1, b2], m, 6⟩ :: ls, ?_, by simp [hmap]⟩
          show disasmRun addr (c :: b1 :: b2 :: rest.flatMap (fun x => x.2.2)) = _
          rw [disasmRun_step2 addr c b1 b2 _ hdec.1 hdec.2 (by norm_num), hrun]
          rfl
        -- j = 7
        · norm_num [operandLen] at hlen'
          obtain ⟨b1, b2, rfl⟩ : ∃ b1 b2, ops = [b1, b2] := by
            cases ops with
            | nil => simp at hlen'
            | cons b1 t =>
              cases t with
              | nil => simp at hlen'
              | cons b2 t2 =>
                cases t2 with
                | nil => exact ⟨b1, b2, rfl⟩
                | cons b3 t3 => simp at hlen'
          obtain ⟨ls, hrun, hmap⟩ := ih (addr + 3) hrest
          refine ⟨⟨addr, [c, b1, b2], m, 7⟩ :: ls, ?_, by simp [hmap]⟩
          show disasmRun addr (c :: b1 :: b2 :: rest.flatMap (fun x => x.2.2)) = _
          rw [disasmRun_step2 addr c b1 b2 _ hdec.1 hdec.2 (by norm_num), hrun]
          rfl
        -- j = 10
        · norm_num [operandLen] at hlen'
          subst hlen'
          obtain ⟨ls, hrun, hmap⟩ := ih (addr + 1) hrest
          refine ⟨⟨addr, [c], m, 10⟩ :: ls, ?_, by simp [hmap]⟩
          show disasmRun addr (c :: rest.flatMap (fun x => x.2.2)) = _
          rw [disasmRun_step10 addr c _ hdec.1 hdec.2, hrun]
          rfl
        -- j = 11
        · norm_num [operandLen] at hlen'
          obtain ⟨b, rfl⟩ := List.length_eq_one.mp hlen'
          obtain ⟨ls, hrun, hmap⟩ := ih (addr + 2) hrest
          refine ⟨⟨addr, [c, b], m, 11⟩ :: ls, ?_, by simp [hmap]⟩
          show disasmRun addr (c :: b :: rest.flatMap (fun x => x.2.2)) = _
          rw [disasmRun_step1 addr c b _ hdec.1 hdec.2 (by norm_num), hrun]
          rfl

set_option maxRecDepth 8000 in
/-- **C4 counterexample**: the source `!byte $a9` / `rts` assembles without
errors, but disassembling its output produces a single phantom
`LDA #`-mode line that consumes the data byte `$A9` *and* the `RTS` opcode
byte as its operand - the emitted `RTS` instruction gets no line at all
(the disassembler has no is-instruction information and decodes data bytes
as opcodes). -/
theorem c4_data_desync :
    (runTwoPasses dataProg).errors = [] ∧
    disassemble (prg (runTwoPasses dataProg))
      = some [⟨2061, [0xA9, 0x60], "LDA", 0⟩] := by
  with_unfolding_all decide

set_option maxRecDepth 8000 in
/-- **C4 amended**: the round trip holds for pure instruction streams:
disassembling any byte stream that is a concatenation of valid encodings
`opcode :: operand-bytes` drawn from the opcode table in the columns the
assembler can emit (Immediate, ZeroPage, Absolute, Absolute-X/Y, Indirect,
Implied/Accumulator, Relative) yields exactly one line per instruction,
with exactly that instruction's table mnemonic and addressing-mode column;
in particular the `lda #$41` / `sta $d020` / `rts` program round-trips to
`LDA`-Immediate, `STA`-Absolute, `RTS`-Implied lines.  (In the presence of
data bytes the stream desynchronizes - see the counterexample - and the
assembler never emits the ZeroPage,X/Y or indexed-indirect columns, whose
checks are commented out; the disassembler also skips column 9,
`(Indirect),Y`, without printing a line.) -/
theorem c4_roundtrip_amended :
    (∀ (insns : List (String × ℕ × List ℕ)) (addr : ℕ),
      (∀ x ∈ insns, validEnc x = true) →
      ∃ ls, disasmRun addr (insns.flatMap (fun x => x.2.2)) = some ls ∧
        ls.map (fun l => (l.mnemonic, l.mode)) = insns.map (fun x => (x.1, x.2.1))) ∧
    disassemble (prg (runTwoPasses helloProg))
      = some [⟨2061, [0xA9, 0x41], "LDA", 0⟩, ⟨2063, [0x8D, 0x20, 0xD0], "STA", 4⟩,
              ⟨2066, [0x60], "RTS", 10⟩] :=
  ⟨fun insns addr h => disasm_stream insns addr h, by with_unfolding_all decide⟩

set_option maxRecDepth 8000 in
/-- Witness for the amended C4: a three-instruction stream
(`dex`, `bne`, `lda $080d`) disassembles to exactly its mnemonic/mode
pairs. -/
theorem c4_roundtrip_amended_witness :
    ∃ ls, disasmRun 2061
        ([("DEX", 10, [0xCA]), ("BNE", 11, [0xD0, 0xFD]),
          ("LDA", 4, [0xAD, 0x0D, 0x08])].flatMap (fun x => x.2.2)) = some ls ∧
      ls.map (fun l => (l.mnemonic, l.mode))
        = [("DEX", 10, [0xCA]), ("BNE", 11, [0xD0, 0xFD]),
           ("LDA", 4, [0xAD, 0x0D, 0x08])].map (fun x => (x.1, x.2.1)) :=
  c4_roundtrip_amended.1 _ 2061 (by with_unfolding_all decide)
